import Mathlib

/-!
# Verification of the MultiAgentMCPNavigator orchestration core

A shallow embedding of the plan→validate→execute→judge→record pipeline of
the repository (files `orchestrai/workflow.py`, `orchestrai/metrics.py`,
`eval/judge.py`, `orchestrai/schemas.py`), together with theorems settling
the specification claims about it.

Modelling conventions:
* Python strings are Lean `String`/`List Char`; text processing is modelled
  at the ASCII level (all inputs exercised by the claims are ASCII).
* Fallible Python code (raised exceptions) is modelled with `Option`/`Except`.
* The opaque text-generation capability (LLM calls) and pydantic JSON
  decoding are oracles passed as function arguments.
* Python `float` values are modelled as finite decimals (IEEE doubles
  serialize to a shortest finite decimal that round-trips).
-/

/-! ## Character classes (ASCII models of Python predicates) -/

/-- Python `\s` (re module, ASCII range): space, tab, newline, carriage
return, vertical tab, form feed. -/
def isSpaceChar (c : Char) : Bool :=
  c = ' ' ∨ c = '\t' ∨ c = '\n' ∨ c = '\r' ∨ c = '\x0b' ∨ c = '\x0c'

/-- Python regex `\w` (ASCII): letters, digits, underscore. -/
def isWordChar (c : Char) : Bool :=
  ('a' ≤ c ∧ c ≤ 'z') ∨ ('A' ≤ c ∧ c ≤ 'Z') ∨ ('0' ≤ c ∧ c ≤ '9') ∨ c = '_'

/-- Regex class `[a-z]`. -/
def isLowerAlpha (c : Char) : Bool := 'a' ≤ c ∧ c ≤ 'z'

/-- ASCII uppercase letter (Python `str.isupper` on one ASCII char). -/
def isUpperAlpha (c : Char) : Bool := 'A' ≤ c ∧ c ≤ 'Z'

/-- ASCII decimal digit. -/
def isDigitChar (c : Char) : Bool := '0' ≤ c ∧ c ≤ '9'

/-- ASCII `str.lower` of one character. -/
def lowerChar (c : Char) : Char :=
  if isUpperAlpha c then Char.ofNat (c.toNat + 32) else c

/-- Executable substring test: Python's `needle in hay`. -/
def containsSub (needle hay : List Char) : Bool :=
  if needle.isPrefixOf hay then true
  else match hay with
    | [] => needle.isEmpty
    | _ :: t => containsSub needle t

/-! ## Data model (`orchestrai/schemas.py`) -/

/-- `PlanStep` (schemas.py lines 22-26). -/
structure PlanStep where
  step_id : Int
  action : String
  tools : List String
  success_criteria : String
deriving DecidableEq, Repr

/-- `TaskPlan` (schemas.py lines 28-32). -/
structure TaskPlan where
  goal : String
  assumptions : List String
  steps : List PlanStep
  risks : List String
deriving DecidableEq, Repr

/-! ## Plan validation hard gate (`workflow.py` lines 333-343)

`run_orchestration` iterates steps in order and, within a step, the step's
tool list in order, raising `RuntimeError` at the first tool name that is
not in the allow-list.  The raised message names the offending tool and its
step id; we model the raise by an `Except` error carrying exactly those. -/

/-- The data carried by the `RuntimeError` of workflow.py lines 339-343:
the offending tool name and the id of the step that listed it. -/
structure PlanToolError where
  tool : String
  step_id : Int
deriving DecidableEq, Repr

/-- Inner loop of the validation gate: scan one step's tool list. -/
def validateStepTools (allowed : List String) (sid : Int) :
    List String → Except PlanToolError Unit
  | [] => .ok ()
  | t :: ts =>
    if t ∈ allowed then validateStepTools allowed sid ts
    else .error ⟨t, sid⟩

/-- The tool-name validation gate of workflow.py lines 336-343. -/
def validate_tools (plan : TaskPlan) (allowed : List String) :
    Except PlanToolError Unit :=
  go plan.steps
where
  /-- Outer loop over the plan's steps. -/
  go : List PlanStep → Except PlanToolError Unit
    | [] => .ok ()
    | s :: ss =>
      match validateStepTools allowed s.step_id s.tools with
      | .ok () => go ss
      | .error e => .error e

/-! ## City extraction (`workflow.py` lines 21-49)

`extract_city` applies, in order: regex pattern 1 `\b(?:in|for)\s+([a-z]+`
`(?:\s+[a-z]+)*?)(?:\s+weather|$|\?|,)` on the lowercased text; regex
pattern 2 `\b([a-z]+(?:\s+[a-z]+)?)\s+weather` on the lowercased text; a
scan of the original text's whitespace-split words for a capitalized word;
a substring check against the abbreviation table; default "New York".
The two regexes are embedded as deterministic matchers: backtracking inside
the greedy/lazy pieces can never succeed where the deterministic reading
fails (a shortened letter run or whitespace run always leaves a character
that no continuation of the pattern accepts), so maximal-run scanning with
terminator-first (lazy star) respectively extension-first (greedy option)
is exactly the regex semantics. -/

/-- The literal `weather`. -/
def weatherLit : List Char := ['w', 'e', 'a', 't', 'h', 'e', 'r']

/-- Terminator alternation of pattern 1: `(?:\s+weather|$|\?|,)`. -/
def p1Term (s : List Char) : Bool :=
  (let (sp, r) := s.span isSpaceChar
   sp ≠ [] ∧ weatherLit.isPrefixOf r)
  ∨ s = [] ∨ s.head? = some '?' ∨ s.head? = some ','

/-- Lazy capture loop of pattern 1: after each captured word, try the
terminator first (lazy `*?`), else extend the capture by `\s+[a-z]+`. -/
def p1Loop : Nat → List Char → List Char → Option (List Char)
  | 0, _, _ => none
  | fuel + 1, acc, s =>
    if p1Term s then some acc
    else
      let (sp, r1) := s.span isSpaceChar
      if sp = [] then none
      else
        let (w, r2) := r1.span isLowerAlpha
        if w = [] then none
        else p1Loop fuel (acc ++ sp ++ w) r2

/-- Try pattern 1 anchored at the current position: keyword `in`/`for`,
then `\s+`, then the lazily extended capture. -/
def p1At (fuel : Nat) (s : List Char) : Option (List Char) :=
  let afterKw : Option (List Char) :=
    if ['i', 'n'].isPrefixOf s then some (s.drop 2)
    else if ['f', 'o', 'r'].isPrefixOf s then some (s.drop 3)
    else none
  match afterKw with
  | none => none
  | some r =>
    let (sp, r1) := r.span isSpaceChar
    if sp = [] then none
    else
      let (w, r2) := r1.span isLowerAlpha
      if w = [] then none
      else p1Loop fuel w r2

/-- `re.search` scan for pattern 1: leftmost start position having a word
boundary before the keyword. -/
def p1Scan (fuel : Nat) : Option Char → List Char → Option (List Char)
  | _, [] => none
  | prev, c :: rest =>
    let boundary : Bool := match prev with
      | none => true
      | some p => ¬ isWordChar p
    match (if boundary then p1At fuel (c :: rest) else none) with
    | some g => some g
    | none => p1Scan fuel (some c) rest

/-- Pattern 1 of `extract_city` (workflow.py line 26). -/
def pattern1 (low : List Char) : Option (List Char) :=
  p1Scan (low.length + 1) none low

/-- `\s+weather` test used by pattern 2. -/
def p2Term (s : List Char) : Bool :=
  let (sp, r) := s.span isSpaceChar
  sp ≠ [] ∧ weatherLit.isPrefixOf r

/-- Try pattern 2 anchored at the current position: one letter word, a
greedily preferred optional second word, then `\s+weather`. -/
def p2At (s : List Char) : Option (List Char) :=
  let (w1, r1) := s.span isLowerAlpha
  if w1 = [] then none
  else
    let greedy : Option (List Char) :=
      let (sp, r2) := r1.span isSpaceChar
      if sp = [] then none
      else
        let (w2, r3) := r2.span isLowerAlpha
        if w2 = [] then none
        else if p2Term r3 then some (w1 ++ sp ++ w2) else none
    match greedy with
    | some g => some g
    | none => if p2Term r1 then some w1 else none

/-- `re.search` scan for pattern 2. -/
def p2Scan : Option Char → List Char → Option (List Char)
  | _, [] => none
  | prev, c :: rest =>
    let boundary : Bool := match prev with
      | none => true
      | some p => ¬ isWordChar p
    match (if boundary then p2At (c :: rest) else none) with
    | some g => some g
    | none => p2Scan (some c) rest

/-- Pattern 2 of `extract_city` (workflow.py line 31). -/
def pattern2 (low : List Char) : Option (List Char) := p2Scan none low

/-- The length of `dropWhile` never exceeds the input's length. -/
theorem dropWhile_length_le (p : α → Bool) (l : List α) :
    (l.dropWhile p).length ≤ l.length := by
  induction l with
  | nil => simp
  | cons a t ih =>
    by_cases h : p a = true
    · simp only [List.dropWhile, h, List.length_cons]
      omega
    · simp [List.dropWhile, h]

/-- Fuelled splitter behind `splitWs`; the fuel (always instantiated to
more than the text length) makes the recursion structural so that the
function reduces definitionally. -/
def splitWsF : Nat → List Char → List (List Char)
  | 0, _ => []
  | fuel + 1, s =>
    match s with
    | [] => []
    | c :: rest =>
      if isSpaceChar c then splitWsF fuel rest
      else
        (c :: rest.takeWhile (fun x => ¬ isSpaceChar x))
          :: splitWsF fuel (rest.dropWhile (fun x => ¬ isSpaceChar x))

/-- Python `str.split()`: split on whitespace runs, dropping empty words. -/
def splitWs (s : List Char) : List (List Char) := splitWsF (s.length + 1) s

/-- Condition of pattern 3 on the current word: nonempty, first character
uppercase, length greater than 2 (workflow.py line 38). -/
def p3Cond (w : List Char) : Bool :=
  match w with
  | [] => false
  | c :: _ => isUpperAlpha c ∧ w.length > 2

/-- Pattern 3 of `extract_city` (workflow.py lines 36-41): first
capitalized word of length > 2, merged with the next word when that word
also starts uppercase. -/
def pattern3 : List (List Char) → Option (List Char)
  | [] => none
  | w :: rest =>
    if p3Cond w then
      match rest with
      | [] => some w
      | w2 :: _ =>
        if (match w2 with | [] => false | c :: _ => isUpperAlpha c)
        then some (w ++ ' ' :: w2)
        else some w
    else pattern3 rest

/-- ASCII uppercase of one character (`str.title` building block). -/
def upperChar (c : Char) : Char :=
  if isLowerAlpha c then Char.ofNat (c.toNat - 32) else c

/-- ASCII letter. -/
def isAlphaAscii (c : Char) : Bool := isLowerAlpha c ∨ isUpperAlpha c

/-- Python `str.title()` on the lowercase captures produced by the regex
patterns: uppercase every letter not preceded by a letter.  The flag
records whether the previous character was a letter. -/
def titleChars : Bool → List Char → List Char
  | _, [] => []
  | prevAlpha, c :: rest =>
    (if prevAlpha then c else upperChar c) :: titleChars (isAlphaAscii c) rest

/-- `extract_city` (workflow.py lines 21-49).  The regex groups are
produced without surrounding whitespace, so the source's `.strip()` is the
identity on them and is omitted. -/
def extract_city (text : String) : String :=
  let chars := text.data
  let low := chars.map lowerChar
  match pattern1 low with
  | some g => ⟨titleChars false g⟩
  | none =>
  match pattern2 low with
  | some g => ⟨titleChars false g⟩
  | none =>
  match pattern3 (splitWs chars) with
  | some w => ⟨w⟩
  | none =>
    if containsSub ['n', 'y', 'c'] low then "New York"
    else if containsSub ['s', 'f'] low then "San Francisco"
    else if containsSub ['l', 'a'] low then "Los Angeles"
    else "New York"

/-! ## Tool dispatch engine (`workflow.py` lines 55-235)

`execute_plan_tools` iterates the plan's steps in order and each step's
tool list in order, skipping a tool name already present in the results
dict.  Each branch of the dispatch (lines 74-223) derives arguments from
the tool name, the user goal and the previously stored results (the
`create_issue` body embeds them), then awaits the runner; the whole branch
body can raise.  We model one branch execution as a single oracle
`call : toolName → userGoal → priorResults → Except errMsg resultText`.
The results dict is an insertion-ordered association list (Python dicts
preserve insertion order); the second component returned is the list of
tool invocations actually performed, in order. -/

/-- Storage rule of workflow.py lines 226-227:
`result_str[:2000] if len(result_str) > 2000 else result_str`. -/
def storeResult (r : String) : String :=
  if r.length > 2000 then ⟨r.data.take 2000⟩ else r

/-- Keys of the results association list, in insertion order. -/
def keysOf (res : List (String × String)) : List String := res.map Prod.fst

/-- Inner loop of `execute_plan_tools` over one step's tool list
(workflow.py lines 66-233). -/
def execTools (call : String → String → List (String × String) → Except String String)
    (goal : String) :
    List String → List (String × String) → List (String × String) × List String
  | [], res => (res, [])
  | t :: ts, res =>
    if t ∈ keysOf res then execTools call goal ts res
    else
      let v := match call t goal res with
        | .ok r => storeResult r
        | .error e => "Error: " ++ e
      let (res', invoked) := execTools call goal ts (res ++ [(t, v)])
      (res', t :: invoked)

/-- Outer loop of `execute_plan_tools` over the plan's steps (workflow.py
lines 62-64); a step with an empty tool list contributes nothing. -/
def execSteps (call : String → String → List (String × String) → Except String String)
    (goal : String) :
    List PlanStep → List (String × String) → List (String × String) × List String
  | [], res => (res, [])
  | s :: ss, res =>
    let (res1, inv1) := execTools call goal s.tools res
    let (res2, inv2) := execSteps call goal ss res1
    (res2, inv1 ++ inv2)

/-- `execute_plan_tools` (workflow.py lines 55-235): the results map in
insertion order, paired with the sequence of tools actually invoked. -/
def execute_plan_tools (plan : TaskPlan)
    (call : String → String → List (String × String) → Except String String)
    (goal : String) : List (String × String) × List String :=
  execSteps call goal plan.steps []

/-- First-wins deduplication relative to a set of already-seen names:
the subsequence of new names, first occurrences only. -/
def dedupNew (seen : List String) : List String → List String
  | [] => []
  | t :: ts => if t ∈ seen then dedupNew seen ts else t :: dedupNew (t :: seen) ts

/-- The tool names of a plan in encounter order: steps in plan order,
tools in each step's list order. -/
def planTools (plan : TaskPlan) : List String :=
  plan.steps.flatMap PlanStep.tools

/-- `dedupNew` only consults the membership of `seen`. -/
theorem dedupNew_congr {s₁ s₂ : List String} (l : List String)
    (h : ∀ x, x ∈ s₁ ↔ x ∈ s₂) : dedupNew s₁ l = dedupNew s₂ l := by
  induction l generalizing s₁ s₂ with
  | nil => rfl
  | cons t ts ih =>
    simp only [dedupNew]
    by_cases ht : t ∈ s₁
    · rw [if_pos ht, if_pos ((h t).mp ht)]
      exact ih h
    · rw [if_neg ht, if_neg (fun hc => ht ((h t).mpr hc))]
      refine congrArg _ (ih fun x => ?_)
      simp [h x]

/-- Splitting `dedupNew` across an append. -/
theorem dedupNew_append (seen l₁ l₂ : List String) :
    dedupNew seen (l₁ ++ l₂) =
      dedupNew seen l₁ ++ dedupNew (seen ++ dedupNew seen l₁) l₂ := by
  induction l₁ generalizing seen with
  | nil =>
    simp only [List.nil_append, dedupNew, List.append_nil]
  | cons t ts ih =>
    simp only [List.cons_append, dedupNew, List.append_eq]
    by_cases ht : t ∈ seen
    · rw [if_pos ht, if_pos ht, ih]
    · rw [if_neg ht, if_neg ht, ih]
      simp only [List.cons_append, List.cons.injEq, true_and]
      refine congrArg _ (dedupNew_congr _ fun x => ?_)
      simp only [List.mem_cons, List.mem_append]
      tauto

/-- Names produced by `dedupNew` are new and not duplicated. -/
theorem dedupNew_nodup_disjoint (seen l : List String) :
    (dedupNew seen l).Nodup ∧ ∀ x ∈ dedupNew seen l, x ∉ seen := by
  induction l generalizing seen with
  | nil => simp [dedupNew]
  | cons t ts ih =>
    simp only [dedupNew]
    by_cases ht : t ∈ seen
    · rw [if_pos ht]; exact ih seen
    · rw [if_neg ht]
      obtain ⟨hnd, hns⟩ := ih (t :: seen)
      refine ⟨List.nodup_cons.mpr ⟨fun hc => ?_, hnd⟩, ?_⟩
      · exact hns t hc (List.mem_cons_self _ _)
      · intro x hx
        rcases List.mem_cons.mp hx with hx | hx
        · exact hx ▸ ht
        · exact fun hc => hns x hx (List.mem_cons_of_mem _ hc)

/-- Every member of `dedupNew seen l` occurs in `l`. -/
theorem dedupNew_subset (seen l : List String) :
    ∀ x ∈ dedupNew seen l, x ∈ l := by
  induction l generalizing seen with
  | nil => simp [dedupNew]
  | cons t ts ih =>
    intro x hx
    simp only [dedupNew] at hx
    by_cases ht : t ∈ seen
    · rw [if_pos ht] at hx
      exact List.mem_cons_of_mem _ (ih seen x hx)
    · rw [if_neg ht] at hx
      rcases List.mem_cons.mp hx with hx | hx
      · exact hx ▸ List.mem_cons_self _ _
      · exact List.mem_cons_of_mem _ (ih _ x hx)

/-- A name of `l` not in `seen` appears in `dedupNew seen l`. -/
theorem mem_dedupNew (seen l : List String) :
    ∀ x ∈ l, x ∉ seen → x ∈ dedupNew seen l := by
  induction l generalizing seen with
  | nil => simp
  | cons t ts ih =>
    intro x hx hns
    simp only [dedupNew]
    by_cases ht : t ∈ seen
    · rw [if_pos ht]
      rcases List.mem_cons.mp hx with hx | hx
      · exact absurd (hx ▸ ht) hns
      · exact ih seen x hx hns
    · rw [if_neg ht]
      by_cases hxt : x = t
      · exact hxt ▸ List.mem_cons_self _ _
      · rcases List.mem_cons.mp hx with hx | hx
        · exact absurd hx hxt
        · refine List.mem_cons_of_mem _ (ih _ x hx ?_)
          simp [hxt, hns]

/-- Characterization of one step's tool loop: the results map grows by
exactly the first occurrences of names not already present, in list order,
and precisely those names are invoked. -/
theorem execTools_spec (call : String → String → List (String × String) → Except String String)
    (goal : String) (ts : List String) (res : List (String × String)) :
    keysOf (execTools call goal ts res).1 = keysOf res ++ dedupNew (keysOf res) ts
    ∧ (execTools call goal ts res).2 = dedupNew (keysOf res) ts := by
  induction ts generalizing res with
  | nil => simp [execTools, dedupNew]
  | cons t ts ih =>
    by_cases ht : t ∈ keysOf res
    · simpa [execTools, dedupNew, ht] using ih res
    · have hkeys : keysOf (res ++ [(t,
          match call t goal res with
          | .ok r => storeResult r
          | .error e => "Error: " ++ e)]) = keysOf res ++ [t] := by
        simp [keysOf]
      obtain ⟨ih1, ih2⟩ := ih (res ++ [(t,
          match call t goal res with
          | .ok r => storeResult r
          | .error e => "Error: " ++ e)])
      rw [hkeys] at ih1 ih2
      have hcongr : dedupNew (keysOf res ++ [t]) ts = dedupNew (t :: keysOf res) ts := by
        refine dedupNew_congr _ fun x => ?_
        simp only [List.mem_append, List.mem_cons, List.mem_singleton]
        tauto
      simp only [execTools, if_neg ht, dedupNew]
      constructor
      · rw [ih1, hcongr, List.append_assoc, List.singleton_append]
      · rw [ih2, hcongr]

/-- One step's tool loop only appends to the results map; entries already
stored are retained unchanged (first execution wins). -/
theorem execTools_preserves (call : String → String → List (String × String) → Except String String)
    (goal : String) (ts : List String) (res : List (String × String)) :
    ∃ added, (execTools call goal ts res).1 = res ++ added := by
  induction ts generalizing res with
  | nil => exact ⟨[], by simp [execTools]⟩
  | cons t ts ih =>
    by_cases ht : t ∈ keysOf res
    · simpa [execTools, ht] using ih res
    · obtain ⟨added, hadded⟩ := ih (res ++ [(t,
          match call t goal res with
          | .ok r => storeResult r
          | .error e => "Error: " ++ e)])
      refine ⟨(t,
          match call t goal res with
          | .ok r => storeResult r
          | .error e => "Error: " ++ e) :: added, ?_⟩
      simp only [execTools, if_neg ht]
      rw [hadded, List.append_assoc, List.singleton_append]

/-- Characterization of the whole plan loop: keys in plan-encounter order,
first occurrences only; invocations are exactly those keys, in order. -/
theorem execSteps_spec (call : String → String → List (String × String) → Except String String)
    (goal : String) (ss : List PlanStep) (res : List (String × String)) :
    keysOf (execSteps call goal ss res).1
      = keysOf res ++ dedupNew (keysOf res) (ss.flatMap PlanStep.tools)
    ∧ (execSteps call goal ss res).2 = dedupNew (keysOf res) (ss.flatMap PlanStep.tools) := by
  induction ss generalizing res with
  | nil => simp [execSteps, dedupNew]
  | cons s ss ih =>
    obtain ⟨h1, h2⟩ := execTools_spec call goal s.tools res
    obtain ⟨ih1, ih2⟩ := ih (execTools call goal s.tools res).1
    rw [h1] at ih1 ih2
    simp only [execSteps, List.flatMap_cons, dedupNew_append]
    constructor
    · rw [ih1, List.append_assoc]
    · rw [ih2, h2]

/-- The plan loop only appends to the results map. -/
theorem execSteps_preserves (call : String → String → List (String × String) → Except String String)
    (goal : String) (ss : List PlanStep) (res : List (String × String)) :
    ∃ added, (execSteps call goal ss res).1 = res ++ added := by
  induction ss generalizing res with
  | nil => exact ⟨[], by simp [execSteps]⟩
  | cons s ss ih =>
    obtain ⟨a1, h1⟩ := execTools_preserves call goal s.tools res
    obtain ⟨a2, h2⟩ := ih (execTools call goal s.tools res).1
    refine ⟨a1 ++ a2, ?_⟩
    simp only [execSteps]
    rw [h2, h1, List.append_assoc]

/-- A stored value is either a (possibly truncated) result of bounded
length or an error-marker string. -/
def storedShape (v : String) : Prop := v.length ≤ 2000 ∨ ∃ m, v = "Error: " ++ m

/-- The truncation rule bounds every successfully stored value. -/
theorem storeResult_length_le (r : String) : (storeResult r).length ≤ 2000 := by
  unfold storeResult
  by_cases h : r.length > 2000
  · rw [if_pos h]
    show (r.data.take 2000).length ≤ 2000
    simp
  · rw [if_neg h]
    omega

/-- Every entry of the tool-loop results map is an initial entry, a
truncation-bounded result, or an error marker. -/
theorem execTools_values (call : String → String → List (String × String) → Except String String)
    (goal : String) (ts : List String) (res : List (String × String)) :
    ∀ p ∈ (execTools call goal ts res).1, p ∈ res ∨ storedShape p.2 := by
  induction ts generalizing res with
  | nil =>
    intro p hp
    simp only [execTools] at hp
    exact .inl hp
  | cons t ts ih =>
    intro p hp
    by_cases ht : t ∈ keysOf res
    · rw [execTools, if_pos ht] at hp
      exact ih res p hp
    · rw [execTools, if_neg ht] at hp
      rcases ih _ p hp with hmem | hok
      · rcases List.mem_append.mp hmem with hmem | hmem
        · exact .inl hmem
        · refine .inr ?_
          rcases List.mem_singleton.mp hmem with rfl
          cases hc : call t goal res with
          | ok r => simp only [hc]; exact .inl (storeResult_length_le r)
          | error e => simp only [hc]; exact .inr ⟨e, rfl⟩
      · exact .inr hok

/-- Every entry of `execute_plan_tools`'s results map is a
truncation-bounded result or an error marker. -/
theorem execute_plan_tools_values (plan : TaskPlan)
    (call : String → String → List (String × String) → Except String String)
    (goal : String) :
    ∀ p ∈ (execute_plan_tools plan call goal).1, storedShape p.2 := by
  have main : ∀ ss res, (∀ p ∈ res, storedShape p.2) →
      ∀ p ∈ (execSteps call goal ss res).1, storedShape p.2 := by
    intro ss
    induction ss with
    | nil => intro res hres p hp; exact hres p (by simpa [execSteps] using hp)
    | cons s ss ih =>
      intro res hres p hp
      rw [execSteps] at hp
      refine ih _ ?_ p hp
      intro q hq
      rcases execTools_values call goal s.tools res q hq with hmem | hok
      · exact hres q hmem
      · exact hok
  intro p hp
  exact main plan.steps [] (by simp) p hp

/-! ## Quality judge (`eval/judge.py`)

`judge_run` builds a scoring prompt, invokes the LLM, and parses the
response with `JudgeScore.model_validate_json`.  On a `ValidationError` it
re-prompts once, embedding the failed response, and parses that result; a
second failure raises out of `judge_run`.  The LLM is an oracle indexed by
call number; pydantic JSON decoding is an oracle producing a candidate
record with integer fields, to which the `Field(ge=0, le=5)` range checks
of judge.py lines 11-13 are applied concretely. -/

/-- A JSON object that decoded to the right field types but has not yet
passed the range constraints. -/
structure JudgeCandidate where
  success : Int
  plan_quality : Int
  reasoning_quality : Int
  notes : String
deriving DecidableEq, Repr

/-- `JudgeScore` (judge.py lines 10-14): all three dimensions in [0,5]. -/
structure JudgeScore where
  success : Int
  plan_quality : Int
  reasoning_quality : Int
  notes : String
deriving DecidableEq, Repr

/-- The pydantic range constraints `ge=0, le=5` on each score dimension:
an out-of-range value is a validation failure, never clamped. -/
def validateJudgeCandidate (c : JudgeCandidate) : Option JudgeScore :=
  if 0 ≤ c.success ∧ c.success ≤ 5
     ∧ 0 ≤ c.plan_quality ∧ c.plan_quality ≤ 5
     ∧ 0 ≤ c.reasoning_quality ∧ c.reasoning_quality ≤ 5
  then some ⟨c.success, c.plan_quality, c.reasoning_quality, c.notes⟩
  else none

/-- `JudgeScore.model_validate_json`: JSON decoding (oracle) followed by
the concrete range validation. -/
def parseJudge (decode : String → Option JudgeCandidate) (raw : String) :
    Option JudgeScore :=
  (decode raw).bind validateJudgeCandidate

/-- The scoring prompt of judge.py lines 34-48, including the 6000
character truncation of the optional trace. -/
def buildJudgePrompt (schemaText goal planText finalAnswer : String)
    (trace : Option String) : String :=
  "You are a strict evaluator for a multi-agent tool orchestration system.\n"
    ++ "Score from 0 to 5 (integers) for each category:\n"
    ++ "- success: does the final answer satisfy the goal?\n"
    ++ "- plan_quality: is the plan step-by-step, realistic, and correctly scoped?\n"
    ++ "- tool_use_quality: are the selected tools appropriate and used sensibly?\n\n"
    ++ "Return ONLY valid JSON that matches this schema exactly:\n"
    ++ schemaText ++ "\n\n"
    ++ "GOAL:\n" ++ goal ++ "\n\n"
    ++ "PLAN (JSON):\n" ++ planText ++ "\n\n"
    ++ "FINAL ANSWER:\n" ++ finalAnswer ++ "\n\n"
    ++ (match trace with
        | none => ""
        | some t => "TRACE:\n" ++ ⟨t.data.take 6000⟩ ++ "\n")

/-- The repair prompt of judge.py lines 56-60; the first failed response
is embedded verbatim at the end. -/
def buildFixPrompt (schemaText raw : String) : String :=
  ("Return ONLY valid JSON for this schema. No markdown, no prose.\n"
    ++ schemaText ++ "\n\nOriginal response:\n") ++ raw

/-- Outcome of one judge invocation: the score or the fatal error, plus
the prompts actually sent to the generation capability, in order. -/
structure JudgeOutcome where
  result : Except String JudgeScore
  prompts : List String
deriving Repr

/-- `judge_run` (judge.py lines 21-62).  `llm n p` is the response of the
n-th LLM call on prompt `p`; `decode` is the JSON-decoding half of
`model_validate_json`. -/
def judge_run (llm : Nat → String → String)
    (decode : String → Option JudgeCandidate)
    (schemaText goal planText finalAnswer : String)
    (trace : Option String) : JudgeOutcome :=
  let prompt := buildJudgePrompt schemaText goal planText finalAnswer trace
  let raw := llm 0 prompt
  match parseJudge decode raw with
  | some s => ⟨.ok s, [prompt]⟩
  | none =>
    let fixPrompt := buildFixPrompt schemaText raw
    let raw2 := llm 1 fixPrompt
    match parseJudge decode raw2 with
    | some s => ⟨.ok s, [prompt, fixPrompt]⟩
    | none => ⟨.error ("judge response failed schema validation twice: " ++ raw2),
               [prompt, fixPrompt]⟩

/-! ## Metrics store (`orchestrai/metrics.py`)

`MetricsTracker.log` appends `json.dumps(asdict(entry)) + "\n"` to a
JSON-lines file; `load_all` re-parses every non-blank line and rebuilds
`MetricEntry(**data)`, raising on any malformed line.  The file is
modelled as the list of its lines; the serialized line is built exactly as
`json.dumps` does (default separators `", "` and `": "`, keys in dataclass
field order, strings escaped with `\"`, `\\`, `\n`, `\t`, `\r`, `\b`,
`\f` and `\u00XX` for the remaining control characters).  `json.dumps`'s
`ensure_ascii` escaping of characters above `0x7e` is elided: it affects
neither round-tripping nor line integrity.  The `execution_time_seconds`
Python float is modelled as a finite decimal `sig·10^exp` (every IEEE
double serializes as a finite decimal that parses back to the same
value); its JSON rendering is the equivalent `<sig>e<exp>` number form. -/

/-- A finite decimal `sig · 10 ^ exp`: the value model of a Python float
in the metrics record. -/
structure DecFloat where
  sig : Int
  exp : Int
deriving DecidableEq, Repr

/-- `MetricEntry` (metrics.py lines 10-22). -/
structure MetricEntry where
  timestamp : String
  goal : String
  goal_type : String
  success_score : Int
  plan_score : Int
  reasoning_score : Int
  execution_time_seconds : DecFloat
  completed : Bool
  errors : List String
  tools_used : List String
deriving DecidableEq, Repr

/-- Hexadecimal digit character (lowercase, as `json.dumps` emits). -/
def hexDigitChar (n : Nat) : Char :=
  if n < 10 then Char.ofNat (48 + n) else Char.ofNat (87 + n)

/-- Hexadecimal digit test. -/
def isHexDigit (c : Char) : Bool :=
  ('0' ≤ c ∧ c ≤ '9') ∨ ('a' ≤ c ∧ c ≤ 'f') ∨ ('A' ≤ c ∧ c ≤ 'F')

/-- Hexadecimal value of a digit character. -/
def hexVal (c : Char) : Nat :=
  if '0' ≤ c ∧ c ≤ '9' then c.toNat - 48
  else if 'a' ≤ c ∧ c ≤ 'f' then c.toNat - 87
  else c.toNat - 55

/-- JSON string escaping of one character, as `json.dumps` performs it
(modulo `ensure_ascii`, see the section comment). -/
def escChar (c : Char) : List Char :=
  if c = '"' then ['\\', '"']
  else if c = '\\' then ['\\', '\\']
  else if c = '\n' then ['\\', 'n']
  else if c = '\t' then ['\\', 't']
  else if c = '\r' then ['\\', 'r']
  else if c = '\x08' then ['\\', 'b']
  else if c = '\x0c' then ['\\', 'f']
  else if c.toNat < 32 then
    ['\\', 'u', '0', '0', hexDigitChar (c.toNat / 16), hexDigitChar (c.toNat % 16)]
  else [c]

/-- JSON string escaping of a character sequence. -/
def escChars (s : List Char) : List Char := s.flatMap escChar

/-- A quoted JSON string. -/
def encodeJStrChars (s : String) : List Char := '"' :: (escChars s.data ++ ['"'])

/-- Decimal digit character. -/
def digitCharOf (d : Nat) : Char := Char.ofNat (48 + d)

/-- Decimal rendering of a natural number, no leading zeros. -/
def encodeNatChars (n : Nat) : List Char :=
  if n = 0 then ['0'] else (Nat.digits 10 n).reverse.map digitCharOf

/-- Decimal rendering of an integer (JSON number). -/
def encodeIntChars (n : Int) : List Char :=
  if n < 0 then '-' :: encodeNatChars n.natAbs else encodeNatChars n.toNat

/-- JSON number form `<sig>e<exp>` of the decimal `sig · 10 ^ exp`. -/
def encodeDecChars (x : DecFloat) : List Char :=
  encodeIntChars x.sig ++ 'e' :: encodeIntChars x.exp

/-- JSON booleans. -/
def encodeBoolChars (b : Bool) : List Char :=
  if b then ['t', 'r', 'u', 'e'] else ['f', 'a', 'l', 's', 'e']

/-- Tail of a JSON string array after the first element: `json.dumps`
separates elements with `", "` and closes with `]`. -/
def strListTail : List String → List Char
  | [] => [']']
  | x :: xs => ',' :: ' ' :: (encodeJStrChars x ++ strListTail xs)

/-- A JSON array of strings, as `json.dumps` renders a `List[str]`. -/
def encodeStrListChars : List String → List Char
  | [] => ['[', ']']
  | x :: xs => '[' :: (encodeJStrChars x ++ strListTail xs)

/-- The serialized JSON line of one `MetricEntry`, exactly as
`json.dumps(asdict(entry))` lays it out: keys in dataclass field order,
`", "` between members, `": "` after each key. -/
def encodeEntryChars (e : MetricEntry) : List Char :=
  ("\x7b\"timestamp\": \"").data ++ escChars e.timestamp.data ++ ['"']
  ++ (", \"goal\": \"").data ++ escChars e.goal.data ++ ['"']
  ++ (", \"goal_type\": \"").data ++ escChars e.goal_type.data ++ ['"']
  ++ (", \"success_score\": ").data ++ encodeIntChars e.success_score
  ++ (", \"plan_score\": ").data ++ encodeIntChars e.plan_score
  ++ (", \"reasoning_score\": ").data ++ encodeIntChars e.reasoning_score
  ++ (", \"execution_time_seconds\": ").data ++ encodeDecChars e.execution_time_seconds
  ++ (", \"completed\": ").data ++ encodeBoolChars e.completed
  ++ (", \"errors\": ").data ++ encodeStrListChars e.errors
  ++ (", \"tools_used\": ").data ++ encodeStrListChars e.tools_used
  ++ ("\x7d").data

/-- The serialized JSON line of one `MetricEntry` as a string. -/
def encodeEntry (e : MetricEntry) : String := ⟨encodeEntryChars e⟩

/-- Consume an expected literal. -/
def dropLit : List Char → List Char → Option (List Char)
  | [], s => some s
  | _ :: _, [] => none
  | c :: cs, d :: ds => if c = d then dropLit cs ds else none

/-- Unescape a single-character JSON escape. -/
def unescChar (e : Char) : Option Char :=
  if e = '"' then some '"'
  else if e = '\\' then some '\\'
  else if e = '/' then some '/'
  else if e = 'n' then some '\n'
  else if e = 't' then some '\t'
  else if e = 'r' then some '\r'
  else if e = 'b' then some '\x08'
  else if e = 'f' then some '\x0c'
  else none

/-- Parse a JSON string body up to and including the closing quote,
unescaping as `json.loads` does; returns the content and the remainder. -/
def parseJString : List Char → Option (List Char × List Char)
  | [] => none
  | c :: r =>
    if c = '"' then some ([], r)
    else if c = '\\' then
      match r with
      | [] => none
      | e :: r2 =>
        if e = 'u' then
          match r2 with
          | h1 :: h2 :: h3 :: h4 :: r3 =>
            if isHexDigit h1 ∧ isHexDigit h2 ∧ isHexDigit h3 ∧ isHexDigit h4 then
              match parseJString r3 with
              | some (s, rest) =>
                some (Char.ofNat
                  (hexVal h1 * 4096 + hexVal h2 * 256 + hexVal h3 * 16 + hexVal h4) :: s,
                  rest)
              | none => none
            else none
          | _ => none
        else
          match unescChar e with
          | some u =>
            match parseJString r2 with
            | some (s, rest) => some (u :: s, rest)
            | none => none
          | none => none
    else
      match parseJString r with
      | some (s, rest) => some (c :: s, rest)
      | none => none

/-- Parse a run of decimal digits into a natural number. -/
def parseNat (s : List Char) : Option (Nat × List Char) :=
  let (ds, r) := s.span isDigitChar
  if ds = [] then none
  else some (ds.foldl (fun a c => a * 10 + (c.toNat - 48)) 0, r)

/-- Parse an optionally negated decimal integer. -/
def parseInt : List Char → Option (Int × List Char)
  | [] => none
  | c :: r =>
    if c = '-' then (parseNat r).map (fun p => (-(p.1 : Int), p.2))
    else (parseNat (c :: r)).map (fun p => ((p.1 : Int), p.2))

/-- Parse a JSON number of the form `<sig>e<exp>`. -/
def parseDec (s : List Char) : Option (DecFloat × List Char) :=
  match parseInt s with
  | none => none
  | some (sig, r) =>
    match r with
    | [] => none
    | c :: r2 =>
      if c = 'e' then (parseInt r2).map (fun p => (⟨sig, p.1⟩, p.2))
      else none

/-- Parse a JSON boolean. -/
def parseBool (s : List Char) : Option (Bool × List Char) :=
  match dropLit ['t', 'r', 'u', 'e'] s with
  | some r => some (true, r)
  | none =>
    match dropLit ['f', 'a', 'l', 's', 'e'] s with
    | some r => some (false, r)
    | none => none

/-- Parse the elements of a nonempty JSON string array (after the opening
bracket), fuelled by an element-count bound. -/
def parseStrListAux : Nat → List Char → Option (List String × List Char)
  | 0, _ => none
  | fuel + 1, s =>
    match s with
    | [] => none
    | c :: r =>
      if c = '"' then
        match parseJString r with
        | none => none
        | some (str, r2) =>
          match r2 with
          | [] => none
          | d :: r3 =>
            if d = ']' then some ([⟨str⟩], r3)
            else if d = ',' then
              match r3 with
              | [] => none
              | sp :: r4 =>
                if sp = ' ' then
                  match parseStrListAux fuel r4 with
                  | some (l, rest) => some (⟨str⟩ :: l, rest)
                  | none => none
                else none
            else none
      else none

/-- Parse a JSON array of strings as `json.dumps` lays it out. -/
def parseStrList (s : List Char) : Option (List String × List Char) :=
  match s with
  | [] => none
  | c :: r =>
    if c = '[' then
      match r with
      | ']' :: r2 => some ([], r2)
      | _ => parseStrListAux (r.length + 1) r
    else none

/-- Parse a quoted JSON string preceded by an expected literal. -/
def parseField (key : List Char) (s : List Char) : Option (List Char × List Char) :=
  match dropLit key s with
  | none => none
  | some s1 => parseJString s1

/-- Parse the three leading string fields of a metrics line. -/
def decodeHead (s : List Char) :
    Option ((List Char × List Char × List Char) × List Char) :=
  match parseField ("\x7b\"timestamp\": \"").data s with
  | none => none
  | some (ts, s1) =>
  match parseField (", \"goal\": \"").data s1 with
  | none => none
  | some (goal, s2) =>
  match parseField (", \"goal_type\": \"").data s2 with
  | none => none
  | some (gt, s3) => some ((ts, goal, gt), s3)

/-- Parse an integer field preceded by an expected key literal. -/
def parseIntField (key : List Char) (s : List Char) : Option (Int × List Char) :=
  match dropLit key s with
  | none => none
  | some s1 => parseInt s1

/-- Parse the three score fields of a metrics line. -/
def decodeScores (s : List Char) : Option ((Int × Int × Int) × List Char) :=
  match parseIntField (", \"success_score\": ").data s with
  | none => none
  | some (ss, s1) =>
  match parseIntField (", \"plan_score\": ").data s1 with
  | none => none
  | some (ps, s2) =>
  match parseIntField (", \"reasoning_score\": ").data s2 with
  | none => none
  | some (rs, s3) => some ((ss, ps, rs), s3)

/-- Parse the time, completed-flag and two list fields plus the closing
brace of a metrics line; the line must end there. -/
def decodeTail (s : List Char) :
    Option (DecFloat × Bool × List String × List String) :=
  match dropLit (", \"execution_time_seconds\": ").data s with
  | none => none
  | some s1 =>
  match parseDec s1 with
  | none => none
  | some (et, s2) =>
  match dropLit (", \"completed\": ").data s2 with
  | none => none
  | some s3 =>
  match parseBool s3 with
  | none => none
  | some (co, s4) =>
  match dropLit (", \"errors\": ").data s4 with
  | none => none
  | some s5 =>
  match parseStrList s5 with
  | none => none
  | some (errs, s6) =>
  match dropLit (", \"tools_used\": ").data s6 with
  | none => none
  | some s7 =>
  match parseStrList s7 with
  | none => none
  | some (tools, s8) =>
  match dropLit ("\x7d").data s8 with
  | none => none
  | some s9 =>
  match s9 with
  | [] => some (et, co, errs, tools)
  | _ => none

/-- Assemble the full line decoder. -/
def decodeEntry (line : String) : Option MetricEntry :=
  match decodeHead line.data with
  | none => none
  | some ((ts, goal, gt), s1) =>
  match decodeScores s1 with
  | none => none
  | some ((ss, ps, rs), s2) =>
  match decodeTail s2 with
  | none => none
  | some (et, co, errs, tools) =>
    some ⟨⟨ts⟩, ⟨goal⟩, ⟨gt⟩, ss, ps, rs, et, co, errs, tools⟩

/-- `MetricsTracker.log` (metrics.py lines 32-35): append one serialized
line to the file. -/
def MetricsTracker.log (file : List String) (e : MetricEntry) : List String :=
  file ++ [encodeEntry e]

/-- Python's `line.strip()` truthiness test of metrics.py line 45. -/
def lineHasContent (l : String) : Bool := l.data.any (fun c => ¬ isSpaceChar c)

/-- The line loop of `load_all`: parse each line in order, failing
wholesale on a malformed one (the raised `json.loads` error). -/
def decodeLines : List String → Option (List MetricEntry)
  | [] => some []
  | l :: ls =>
    match decodeEntry l with
    | none => none
    | some e =>
      match decodeLines ls with
      | none => none
      | some es => some (e :: es)

/-- `MetricsTracker.load_all` (metrics.py lines 37-48): parse every
non-blank line, failing wholesale on a malformed one. -/
def MetricsTracker.load_all (file : List String) : Option (List MetricEntry) :=
  decodeLines (file.filter lineHasContent)

/-! ### Round-trip lemmas for the serialized line format -/

/-- `dropLit` recognizes exactly the literal it is given. -/
theorem dropLit_self (l r : List Char) : dropLit l (l ++ r) = some r := by
  induction l with
  | nil => rfl
  | cons c cs ih => simp [dropLit, ih]

/-- The first element, if any, fails the predicate. -/
def headNotB (p : α → Bool) : List α → Bool
  | [] => true
  | c :: _ => ! p c

/-- `span` splits exactly at a prefix all of whose elements satisfy the
predicate when the remainder starts with a failing element. -/
theorem span_append_all (p : α → Bool) (l₁ l₂ : List α)
    (h1 : ∀ c ∈ l₁, p c = true) (h2 : headNotB p l₂ = true) :
    (l₁ ++ l₂).span p = (l₁, l₂) := by
  induction l₁ with
  | nil =>
    simp only [List.nil_append, List.span_eq_take_drop]
    cases l₂ with
    | nil => rfl
    | cons c t =>
      simp only [headNotB, Bool.not_eq_true'] at h2
      simp [List.takeWhile_cons, List.dropWhile_cons, h2]
  | cons a l ih =>
    have ha : p a = true := h1 a (List.mem_cons_self _ _)
    have ih' := ih (fun c hc => h1 c (List.mem_cons_of_mem _ hc))
    simp only [List.span_eq_take_drop] at ih' ⊢
    simp only [List.cons_append, List.takeWhile_cons, List.dropWhile_cons, ha,
      if_true, Prod.mk.injEq] at ih' ⊢
    exact ⟨congrArg _ ih'.1, ih'.2⟩

/-- A decimal digit's character is a digit character. -/
theorem isDigitChar_digitCharOf (d : Nat) (h : d < 10) :
    isDigitChar (digitCharOf d) = true := by
  interval_cases d <;> decide

/-- Character value of a decimal digit character. -/
theorem digitCharOf_toNat (d : Nat) (h : d < 10) : (digitCharOf d).toNat = 48 + d := by
  interval_cases d <;> decide

/-- Every character of the decimal rendering is a digit. -/
theorem encodeNatChars_digits (n : Nat) :
    ∀ c ∈ encodeNatChars n, isDigitChar c = true := by
  intro c hc
  unfold encodeNatChars at hc
  by_cases h0 : n = 0
  · rw [if_pos h0] at hc
    rcases List.mem_singleton.mp hc with rfl
    decide
  · rw [if_neg h0] at hc
    obtain ⟨d, hd, rfl⟩ := List.mem_map.mp hc
    exact isDigitChar_digitCharOf d
      (Nat.digits_lt_base (by norm_num) (List.mem_reverse.mp hd))

/-- The decimal rendering is never empty. -/
theorem encodeNatChars_ne_nil (n : Nat) : encodeNatChars n ≠ [] := by
  unfold encodeNatChars
  by_cases h0 : n = 0
  · simp [h0]
  · rw [if_neg h0]
    simp [Nat.digits_ne_nil_iff_ne_zero.mpr h0]

/-- Big-endian digit fold computes `Nat.ofDigits`. -/
theorem foldl_reverse_ofDigits (l : List Nat) :
    l.reverse.foldl (fun a d => a * 10 + d) 0 = Nat.ofDigits 10 l := by
  induction l with
  | nil => simp [Nat.ofDigits_nil]
  | cons d t ih =>
    simp only [List.reverse_cons, List.foldl_append, List.foldl_cons, List.foldl_nil,
      ih, Nat.ofDigits_cons]
    ring

/-- Folding the digit characters of `n` recovers `n`. -/
theorem foldl_encodeNatChars (n : Nat) :
    (encodeNatChars n).foldl (fun a c => a * 10 + (c.toNat - 48)) 0 = n := by
  unfold encodeNatChars
  by_cases h0 : n = 0
  · subst h0; decide
  · rw [if_neg h0, List.foldl_map]
    have hstep : ∀ (a : Nat), ∀ d ∈ (Nat.digits 10 n).reverse,
        a * 10 + ((digitCharOf d).toNat - 48) = a * 10 + d := by
      intro a d hd
      rw [digitCharOf_toNat d (Nat.digits_lt_base (by norm_num) (List.mem_reverse.mp hd))]
      omega
    calc (Nat.digits 10 n).reverse.foldl (fun a c => a * 10 + ((digitCharOf c).toNat - 48)) 0
        = (Nat.digits 10 n).reverse.foldl (fun a d => a * 10 + d) 0 := by
          apply List.foldl_ext
          intro a d hd
          exact hstep a d hd
      _ = n := by rw [foldl_reverse_ofDigits, Nat.ofDigits_digits]

/-- `parseNat` inverts the decimal rendering. -/
theorem parseNat_encode (n : Nat) (r : List Char)
    (hr : headNotB isDigitChar r = true) :
    parseNat (encodeNatChars n ++ r) = some (n, r) := by
  unfold parseNat
  rw [span_append_all isDigitChar _ r (encodeNatChars_digits n) hr]
  simp only [if_neg (encodeNatChars_ne_nil n), foldl_encodeNatChars]

/-- The decimal rendering starts with a digit, hence not with `-`. -/
theorem encodeNatChars_head_digit (n : Nat) :
    ∃ c t, encodeNatChars n = c :: t ∧ isDigitChar c = true := by
  cases h : encodeNatChars n with
  | nil => exact absurd h (encodeNatChars_ne_nil n)
  | cons c t =>
    exact ⟨c, t, rfl, encodeNatChars_digits n c (h ▸ List.mem_cons_self _ _)⟩

/-- `parseInt` inverts the integer rendering. -/
theorem parseInt_encode (n : Int) (r : List Char)
    (hr : headNotB isDigitChar r = true) :
    parseInt (encodeIntChars n ++ r) = some (n, r) := by
  unfold encodeIntChars
  by_cases hneg : n < 0
  · rw [if_pos hneg]
    have hnabs : -(n.natAbs : Int) = n := by omega
    simp only [List.cons_append, parseInt, eq_self_iff_true, if_true,
      parseNat_encode n.natAbs r hr, Option.map_some', hnabs]
  · rw [if_neg hneg]
    obtain ⟨c, t, hct, hc⟩ := encodeNatChars_head_digit n.toNat
    rw [hct]
    have hcm : c = '-' → False := by
      intro h; rw [h] at hc; exact absurd hc (by decide)
    simp only [List.cons_append, parseInt, if_neg (fun h => hcm h)]
    rw [← List.cons_append, ← hct, parseNat_encode n.toNat r hr]
    simp only [Option.map_some']
    congr 1
    have : (n.toNat : Int) = n := by omega
    rw [this]

/-- `headNotB` holds of any list starting with a failing element. -/
theorem headNotB_cons (p : α → Bool) (c : α) (t : List α) (h : p c = false) :
    headNotB p (c :: t) = true := by
  simp [headNotB, h]

/-- `parseDec` inverts the decimal-float rendering. -/
theorem parseDec_encode (x : DecFloat) (r : List Char)
    (hr : headNotB isDigitChar r = true) :
    parseDec (encodeDecChars x ++ r) = some (x, r) := by
  unfold encodeDecChars parseDec
  rw [List.append_assoc, List.cons_append,
    parseInt_encode x.sig ('e' :: (encodeIntChars x.exp ++ r))
      (headNotB_cons _ _ _ (by decide))]
  simp only [eq_self_iff_true, if_true, parseInt_encode x.exp r hr, Option.map_some']

/-- `parseBool` inverts the boolean rendering. -/
theorem parseBool_encode (b : Bool) (r : List Char) :
    parseBool (encodeBoolChars b ++ r) = some (b, r) := by
  cases b <;> simp [encodeBoolChars, parseBool, dropLit]

/-- A hex digit character renders a value below 16 and is recognized. -/
theorem isHexDigit_hexDigitChar (d : Nat) (h : d < 16) :
    isHexDigit (hexDigitChar d) = true := by
  interval_cases d <;> decide

/-- Hex value of the hex digit character of a value below 16. -/
theorem hexVal_hexDigitChar (d : Nat) (h : d < 16) : hexVal (hexDigitChar d) = d := by
  interval_cases d <;> decide

/-- `parseJString` inverts JSON string escaping: the body runs to the
first unescaped quote and unescapes to the original text. -/
theorem parseJString_escape (s r : List Char) :
    parseJString (escChars s ++ '"' :: r) = some (s, r) := by
  induction s with
  | nil =>
    rw [show escChars [] ++ '"' :: r = '"' :: r by simp [escChars]]
    rw [parseJString.eq_def]
    simp
  | cons c cs ih =>
    have hstep : escChars (c :: cs) ++ '"' :: r
        = escChar c ++ (escChars cs ++ '"' :: r) := by
      simp [escChars]
    rw [hstep]
    by_cases h1 : c = '"'
    · subst h1
      rw [show escChar '"' = ['\\', '"'] from rfl]
      rw [List.cons_append, List.cons_append, parseJString.eq_def]
      simp [unescChar, ih]
    by_cases h2 : c = '\\'
    · subst h2
      rw [show escChar '\\' = ['\\', '\\'] by simp [escChar]]
      rw [List.cons_append, List.cons_append, parseJString.eq_def]
      simp [unescChar, ih]
    by_cases h3 : c = '\n'
    · subst h3
      rw [show escChar '\n' = ['\\', 'n'] by simp [escChar]]
      rw [List.cons_append, List.cons_append, parseJString.eq_def]
      simp [unescChar, ih]
    by_cases h4 : c = '\t'
    · subst h4
      rw [show escChar '\t' = ['\\', 't'] by simp [escChar]]
      rw [List.cons_append, List.cons_append, parseJString.eq_def]
      simp [unescChar, ih]
    by_cases h5 : c = '\r'
    · subst h5
      rw [show escChar '\r' = ['\\', 'r'] by simp [escChar]]
      rw [List.cons_append, List.cons_append, parseJString.eq_def]
      simp [unescChar, ih]
    by_cases h6 : c = '\x08'
    · subst h6
      rw [show escChar '\x08' = ['\\', 'b'] by simp [escChar]]
      rw [List.cons_append, List.cons_append, parseJString.eq_def]
      simp [unescChar, ih]
    by_cases h7 : c = '\x0c'
    · subst h7
      rw [show escChar '\x0c' = ['\\', 'f'] by simp [escChar]]
      rw [List.cons_append, List.cons_append, parseJString.eq_def]
      simp [unescChar, ih]
    by_cases h8 : c.toNat < 32
    · have hhi : c.toNat / 16 < 16 := by omega
      have hlo : c.toNat % 16 < 16 := Nat.mod_lt _ (by norm_num)
      have hx0 : isHexDigit '0' = true := by decide
      have hval : hexVal '0' * 4096 + hexVal '0' * 256
          + hexVal (hexDigitChar (c.toNat / 16)) * 16
          + hexVal (hexDigitChar (c.toNat % 16)) = c.toNat := by
        rw [hexVal_hexDigitChar _ hhi, hexVal_hexDigitChar _ hlo]
        have hdm := Nat.div_add_mod c.toNat 16
        have h0 : hexVal '0' = 0 := by decide
        rw [h0]
        omega
      rw [show escChar c = ['\\', 'u', '0', '0', hexDigitChar (c.toNat / 16),
            hexDigitChar (c.toNat % 16)] by
        simp [escChar, h1, h2, h3, h4, h5, h6, h7, h8]]
      simp only [List.cons_append, List.nil_append]
      rw [parseJString.eq_def]
      simp only [reduceIte, ih]
      simp [isHexDigit_hexDigitChar _ hhi, isHexDigit_hexDigitChar _ hlo, hx0, hval,
        Char.ofNat_toNat, ih]
    · rw [show escChar c = [c] by simp [escChar, h1, h2, h3, h4, h5, h6, h7, h8]]
      rw [List.cons_append, List.nil_append, parseJString.eq_def]
      simp [h1, h2, ih]

/-- `headNotB` transfers from a nonempty list to any extension. -/
theorem headNotB_append (p : α → Bool) (l X : List α)
    (h : headNotB p l = true) (hne : l ≠ []) : headNotB p (l ++ X) = true := by
  cases l with
  | nil => exact absurd rfl hne
  | cons c t => simpa [headNotB] using h

/-- Consuming a literal with nothing after it. -/
theorem dropLit_self_nil (l : List Char) : dropLit l l = some [] := by
  simpa using dropLit_self l []

/-- The array tail rendering has at least one character per element. -/
theorem strListTail_length (xs : List String) : xs.length ≤ (strListTail xs).length := by
  induction xs with
  | nil => simp [strListTail]
  | cons y ys ih =>
    simp only [strListTail, List.length_cons, List.length_append]
    omega

/-- `parseStrListAux` inverts the nonempty-array rendering, given fuel
bounded below by the element count. -/
theorem parseStrListAux_encode (xs : List String) (x : String) (r : List Char)
    (fuel : Nat) (hf : xs.length + 1 ≤ fuel) :
    parseStrListAux fuel (encodeJStrChars x ++ (strListTail xs ++ r))
      = some (x :: xs, r) := by
  induction xs generalizing x fuel with
  | nil =>
    cases fuel with
    | zero => omega
    | succ f =>
      rw [show encodeJStrChars x ++ (strListTail [] ++ r)
          = '"' :: (escChars x.data ++ '"' :: (']' :: r)) by
        simp [encodeJStrChars, strListTail]]
      rw [parseStrListAux.eq_def]
      simp [parseJString_escape]
  | cons y ys ih =>
    cases fuel with
    | zero => omega
    | succ f =>
      rw [show encodeJStrChars x ++ (strListTail (y :: ys) ++ r)
          = '"' :: (escChars x.data ++ '"' :: (',' :: ' ' ::
              (encodeJStrChars y ++ (strListTail ys ++ r)))) by
        simp [encodeJStrChars, strListTail]]
      rw [parseStrListAux.eq_def]
      have hys : ys.length + 1 ≤ f := by
        simp only [List.length_cons] at hf
        omega
      simp [parseJString_escape, ih y f hys]

/-- `parseStrList` inverts the JSON string-array rendering. -/
theorem parseStrList_encode (l : List String) (r : List Char) :
    parseStrList (encodeStrListChars l ++ r) = some (l, r) := by
  cases l with
  | nil =>
    rw [show encodeStrListChars [] ++ r = '[' :: ']' :: r by simp [encodeStrListChars]]
    rw [parseStrList.eq_def]
    simp
  | cons x xs =>
    rw [show encodeStrListChars (x :: xs) ++ r
        = '[' :: ('"' :: ((escChars x.data ++ ['"']) ++ (strListTail xs ++ r))) by
      simp [encodeStrListChars, encodeJStrChars]]
    rw [parseStrList.eq_def]
    have hlen : xs.length + 1
        ≤ ('"' :: ((escChars x.data ++ ['"']) ++ (strListTail xs ++ r))).length + 1 := by
      have h1 := strListTail_length xs
      simp only [List.length_cons, List.length_append]
      omega
    have haux := parseStrListAux_encode xs x r _ hlen
    rw [show encodeJStrChars x ++ (strListTail xs ++ r)
        = '"' :: ((escChars x.data ++ ['"']) ++ (strListTail xs ++ r)) by
      simp [encodeJStrChars]] at haux
    simpa using haux

/-- `dropLit` consumes one matching character at a time. -/
theorem dropLit_cons_same (c : Char) (cs ds : List Char) :
    dropLit (c :: cs) (c :: ds) = dropLit cs ds := by
  simp [dropLit]

/-- `dropLit` of the empty literal. -/
theorem dropLit_nil (s : List Char) : dropLit [] s = some s := rfl

/-- A remainder starting with a comma starts with a non-digit. -/
theorem hnd_comma (t : List Char) : headNotB isDigitChar (',' :: t) = true := by
  simp [headNotB]
  decide

set_option maxRecDepth 8000 in
/-- Decoding inverts encoding on every metrics line. -/
theorem decodeEntry_encodeEntry (e : MetricEntry) :
    decodeEntry (encodeEntry e) = some e := by
  obtain ⟨ts, g, gt, ss, ps, rs, et, co, errs, tools⟩ := e
  show decodeEntry ⟨encodeEntryChars ⟨ts, g, gt, ss, ps, rs, et, co, errs, tools⟩⟩ = _
  simp only [decodeEntry, decodeHead, decodeScores, decodeTail, parseField,
    parseIntField, encodeEntryChars, List.append_assoc, List.cons_append,
    List.singleton_append, List.append_nil, List.nil_append,
    dropLit_cons_same, dropLit_nil,
    parseJString_escape, parseInt_encode, parseDec_encode, parseBool_encode,
    parseStrList_encode, hnd_comma]

/-- A metrics line is never blank (it starts with a brace). -/
theorem lineHasContent_encodeEntry (e : MetricEntry) :
    lineHasContent (encodeEntry e) = true := by
  show (encodeEntryChars e).any (fun c => ¬ isSpaceChar c) = true
  rw [List.any_eq_true]
  refine ⟨'\x7b', ?_, by decide⟩
  have hm : '\x7b' ∈ ("\x7b\"timestamp\": \"").data := by decide
  simp only [encodeEntryChars, List.mem_append]
  tauto

/-- Folding `log` over a list of entries appends their serializations. -/
theorem foldl_log (entries : List MetricEntry) (file : List String) :
    entries.foldl MetricsTracker.log file = file ++ entries.map encodeEntry := by
  induction entries generalizing file with
  | nil => simp
  | cons e t ih =>
    simp only [List.foldl_cons, List.map_cons]
    rw [ih, MetricsTracker.log, List.append_assoc, List.singleton_append]

/-- Decoding a list of serialized entries recovers them all. -/
theorem decodeLines_encode (entries : List MetricEntry) :
    decodeLines (entries.map encodeEntry) = some entries := by
  induction entries with
  | nil => rfl
  | cons e t ih => simp [decodeLines, decodeEntry_encodeEntry, ih]

/-! ### Statistics (`metrics.py` lines 50-99, 125-136) -/

/-- `statistics.mean` over the integer scores, computed exactly in `ℚ`
(integer score means are fifths, never within `10⁻¹` of the `±0.5`
thresholds, so exact rationals classify identically to Python floats). -/
def meanQ (l : List Int) : ℚ := (l.map (fun i => (i : ℚ))).sum / l.length

/-- `MetricsTracker._calculate_trend` (metrics.py lines 82-99). -/
def calculate_trend (entries : List MetricEntry) (window : Nat) : String :=
  if entries.length < window * 2 then "insufficient_data"
  else
    let recent := entries.drop (entries.length - window)
    let previous := (entries.drop (entries.length - window * 2)).take window
    let recentAvg := meanQ (recent.map MetricEntry.success_score)
    let previousAvg := meanQ (previous.map MetricEntry.success_score)
    let diff := recentAvg - previousAvg
    if diff > 1 / 2 then "improving"
    else if diff < -(1 / 2) then "declining"
    else "stable"

/-- `infer_goal_type` (metrics.py lines 125-136): first matching keyword
category wins; membership is substring containment on the lowercased goal. -/
def infer_goal_type (goal : String) : String :=
  let low := goal.data.map lowerChar
  if containsSub ("weather").data low ∨ containsSub ("temperature").data low
      ∨ containsSub ("forecast").data low then "weather"
  else if containsSub ("search").data low ∨ containsSub ("find").data low
      ∨ containsSub ("look").data low then "search"
  else if containsSub ("issue").data low ∨ containsSub ("repo").data low
      ∨ containsSub ("github").data low ∨ containsSub ("pull").data low then "github"
  else "other"

/-! ## Orchestration control flow (`workflow.py` lines 246-476)

The planner/executor crews and the wall clock are oracles in a `RunEnv`;
everything downstream of them — sanitizing, schema parse, the tool gate,
tool execution, the synthesis try/except, judging and metric logging — is
the concrete control flow of `run_orchestration`.  A raised exception is
an `Except.error` outcome; the run result also exposes the tool
invocations performed and the metrics file after the run, so that the
abort-before-logging behaviour is visible. -/

/-- Python `str.strip()` (whitespace from both ends). -/
def pyStrip (s : List Char) : List Char :=
  ((s.dropWhile isSpaceChar).reverse.dropWhile isSpaceChar).reverse

/-- Python `str.strip("`")`. -/
def stripBackticks (s : List Char) : List Char :=
  ((s.dropWhile (fun c => c = '`')).reverse.dropWhile (fun c => c = '`')).reverse

/-- Planner-output sanitizing (workflow.py lines 313-318): strip
whitespace; on a leading code fence, strip backticks and whitespace and a
leading case-insensitive `json` tag. -/
def sanitizePlan (raw : String) : String :=
  let s := pyStrip raw.data
  if ['`', '`', '`'].isPrefixOf s then
    let s2 := pyStrip (stripBackticks s)
    if (s2.take 4).map lowerChar = ['j', 's', 'o', 'n'] then ⟨pyStrip (s2.drop 4)⟩
    else ⟨s2⟩
  else ⟨s⟩

/-- First-occurrence deduplication, modelling `list(set(xs))` of
workflow.py line 444 (Python's set iteration order is unspecified; no
claim depends on this order). -/
def dedupKeepFirst (l : List String) : List String := dedupNew [] l

/-- The oracles of one orchestration run: the planner's raw output, the
pydantic `TaskPlan` parser, the tool allow-list, the dispatch/runner
behaviour, the executor outcome, the judge LLM and its JSON decoding, the
plan renderer, and the wall-clock readings. -/
structure RunEnv where
  rawPlan : String
  parsePlan : String → Option TaskPlan
  allowed : List String
  callTool : String → String → List (String × String) → Except String String
  synth : Except String String
  llm : Nat → String → String
  decodeJudge : String → Option JudgeCandidate
  schemaText : String
  renderPlan : TaskPlan → String
  timestamp : String
  execTime : DecFloat

/-- The model of the returned `ExecutionResult` (schemas.py lines 35-40
plus the `outputs` mapping built at workflow.py lines 464-476). -/
structure ExecutionResultM where
  goal : String
  completed : Bool
  plan : TaskPlan
  research : String
  judge : JudgeScore
  tool_results : List (String × String)
  execution_time : DecFloat
  errors : List String
  final_answer : String
deriving Repr

/-- Observable outcome of `run_orchestration`: the returned value or the
raised error, the tool invocations that actually happened, and the state
of the metrics file afterwards. -/
structure RunOutcome where
  result : Except String ExecutionResultM
  toolCalls : List String
  file : List String

/-- `run_orchestration` (workflow.py lines 246-476). -/
def run_orchestration (goal : String) (env : RunEnv) (file : List String) : RunOutcome :=
  match env.parsePlan (sanitizePlan env.rawPlan) with
  | none => ⟨.error "Planner produced invalid TaskPlan.", [], file⟩
  | some plan =>
    match validate_tools plan env.allowed with
    | .error e =>
      ⟨.error ("VALIDATION FAILED: Planner used invalid tool " ++ e.tool), [], file⟩
    | .ok _ =>
      let tr := execute_plan_tools plan env.callTool goal
      let research := "\x7b\"query\": \"" ++ goal
        ++ "\", \"findings\": [], \"notes\": \"Skipped - using tool results directly\"\x7d"
      let execOut : String × Bool × List String :=
        match env.synth with
        | .ok s => (s, true, [])
        | .error m => ("Execution failed: " ++ m, false, [m])
      let j := judge_run env.llm env.decodeJudge env.schemaText goal
        (env.renderPlan plan) execOut.1 none
      match j.result with
      | .error m => ⟨.error m, tr.2, file⟩
      | .ok score =>
        let entry : MetricEntry :=
          ⟨env.timestamp, goal, infer_goal_type goal, score.success,
           score.plan_quality, score.reasoning_quality, env.execTime,
           execOut.2.1, execOut.2.2, dedupKeepFirst (planTools plan)⟩
        ⟨.ok ⟨goal, execOut.2.1, plan, research, score, tr.1, env.execTime,
              execOut.2.2, execOut.1⟩,
         tr.2, MetricsTracker.log file entry⟩

/-! ## Supporting lemmas for the claims -/

/-- Soundness and completeness of one step's validation scan. -/
theorem validateStepTools_ok_iff (allowed : List String) (sid : Int) (ts : List String) :
    validateStepTools allowed sid ts = .ok () ↔ ∀ t ∈ ts, t ∈ allowed := by
  induction ts with
  | nil => simp [validateStepTools]
  | cons t ts ih =>
    by_cases ht : t ∈ allowed
    · simp [validateStepTools, ht, ih]
    · simp [validateStepTools, ht]

/-- A violating tool in a step produces an error naming a violating tool
of that step together with the step's id. -/
theorem validateStepTools_error (allowed : List String) (sid : Int) (ts : List String)
    (h : ∃ t ∈ ts, t ∉ allowed) :
    ∃ e, validateStepTools allowed sid ts = .error e
      ∧ e.step_id = sid ∧ e.tool ∈ ts ∧ e.tool ∉ allowed := by
  induction ts with
  | nil => simp at h
  | cons t ts ih =>
    by_cases ht : t ∈ allowed
    · obtain ⟨t', ht', hna⟩ := h
      rcases List.mem_cons.mp ht' with rfl | hmem
      · exact absurd ht hna
      · obtain ⟨e, he, h1, h2, h3⟩ := ih ⟨t', hmem, hna⟩
        exact ⟨e, by simpa [validateStepTools, ht] using he, h1,
          List.mem_cons_of_mem _ h2, h3⟩
    · exact ⟨⟨t, sid⟩, by simp [validateStepTools, ht], rfl, List.mem_cons_self _ _, ht⟩

/-- The step loop of the gate succeeds on fully allowed steps. -/
theorem validate_go_ok (allowed : List String) (ss : List PlanStep)
    (h : ∀ s ∈ ss, ∀ t ∈ s.tools, t ∈ allowed) :
    validate_tools.go allowed ss = .ok () := by
  induction ss with
  | nil => rfl
  | cons s ss ih =>
    rw [validate_tools.go]
    rw [(validateStepTools_ok_iff allowed s.step_id s.tools).mpr
      (h s (List.mem_cons_self _ _))]
    exact ih (fun s' hs' t ht => h s' (List.mem_cons_of_mem _ hs') t ht)

/-- The whole-plan gate succeeds exactly on fully allowed plans. -/
theorem validate_tools_ok (plan : TaskPlan) (allowed : List String)
    (h : ∀ s ∈ plan.steps, ∀ t ∈ s.tools, t ∈ allowed) :
    validate_tools plan allowed = .ok () :=
  validate_go_ok allowed plan.steps h

/-- The step loop of the gate fails on a violating step list, naming a
violating tool and the id of a step that listed it. -/
theorem validate_go_error (allowed : List String) (ss : List PlanStep)
    (h : ∃ s ∈ ss, ∃ t ∈ s.tools, t ∉ allowed) :
    ∃ e, validate_tools.go allowed ss = .error e ∧ e.tool ∉ allowed
      ∧ ∃ s ∈ ss, s.step_id = e.step_id ∧ e.tool ∈ s.tools := by
  induction ss with
  | nil => simp at h
  | cons s ss ih =>
    by_cases hs : ∃ t ∈ s.tools, t ∉ allowed
    · obtain ⟨e, he, h1, h2, h3⟩ := validateStepTools_error allowed s.step_id s.tools hs
      refine ⟨e, ?_, h3, s, List.mem_cons_self _ _, h1.symm, h2⟩
      rw [validate_tools.go, he]
    · have hsok : ∀ t ∈ s.tools, t ∈ allowed := by
        intro t ht
        by_contra hna
        exact hs ⟨t, ht, hna⟩
      have hrest : ∃ s' ∈ ss, ∃ t ∈ s'.tools, t ∉ allowed := by
        obtain ⟨s', hs', t, ht, hna⟩ := h
        rcases List.mem_cons.mp hs' with rfl | hmem
        · exact absurd (hsok t ht) hna
        · exact ⟨s', hmem, t, ht, hna⟩
      obtain ⟨e, he, h1, s', h2, h3, h4⟩ := ih hrest
      refine ⟨e, ?_, h1, s', List.mem_cons_of_mem _ h2, h3, h4⟩
      rw [validate_tools.go, (validateStepTools_ok_iff allowed s.step_id s.tools).mpr hsok]
      exact he

/-- The whole-plan gate fails on any violating plan, naming a violating
tool and the id of a step that listed it. -/
theorem validate_tools_error (plan : TaskPlan) (allowed : List String)
    (h : ∃ s ∈ plan.steps, ∃ t ∈ s.tools, t ∉ allowed) :
    ∃ e, validate_tools plan allowed = .error e ∧ e.tool ∉ allowed
      ∧ ∃ s ∈ plan.steps, s.step_id = e.step_id ∧ e.tool ∈ s.tools :=
  validate_go_error allowed plan.steps h

/-! ## Claim theorems -/

/-- C1: tool validation is a hard gate with raises-iff semantics — a plan
whose every step's tools are allowed validates successfully (and, being a
pure check, leaves the plan unmodified); a plan containing a disallowed
tool name fails with an error naming an offending tool together with its
step, and in a run whose plan fails the gate no tool is ever invoked and
the run aborts with an error. -/
theorem C1_validate_tools_hard_gate (plan : TaskPlan) (allowed : List String) :
    ((∀ s ∈ plan.steps, ∀ t ∈ s.tools, t ∈ allowed) →
      validate_tools plan allowed = .ok ())
    ∧ ((∃ s ∈ plan.steps, ∃ t ∈ s.tools, t ∉ allowed) →
      ∃ e, validate_tools plan allowed = .error e ∧ e.tool ∉ allowed
        ∧ ∃ s ∈ plan.steps, s.step_id = e.step_id ∧ e.tool ∈ s.tools)
    ∧ (∀ goal env file, env.parsePlan (sanitizePlan env.rawPlan) = some plan →
        env.allowed = allowed →
        (∃ s ∈ plan.steps, ∃ t ∈ s.tools, t ∉ allowed) →
        (run_orchestration goal env file).toolCalls = []
        ∧ ∃ m, (run_orchestration goal env file).result = .error m) := by
  refine ⟨validate_tools_ok plan allowed, validate_tools_error plan allowed, ?_⟩
  intro goal env file hparse hallowed hviol
  obtain ⟨e, he, -, -⟩ := validate_tools_error plan allowed hviol
  rw [← hallowed] at he
  simp only [run_orchestration, hparse, he]
  exact ⟨trivial, _, rfl⟩

/-- C1 witness: a fully allowed plan validates; a plan using an unknown
tool fails naming it; the failing run performs no tool call. -/
theorem C1_witness :
    validate_tools ⟨"g", [], [⟨1, "a", ["tavily_search"], "c"⟩], []⟩
        ["get_weather", "tavily_search"] = .ok ()
    ∧ (∃ e, validate_tools ⟨"g", [], [⟨1, "a", ["browser"], "c"⟩], []⟩
        ["get_weather", "tavily_search"] = .error e
        ∧ e.tool ∉ ["get_weather", "tavily_search"]
        ∧ ∃ s ∈ [PlanStep.mk 1 "a" ["browser"] "c"],
            s.step_id = e.step_id ∧ e.tool ∈ s.tools) := by
  constructor
  · exact (C1_validate_tools_hard_gate
      ⟨"g", [], [⟨1, "a", ["tavily_search"], "c"⟩], []⟩
      ["get_weather", "tavily_search"]).1 (by decide)
  · exact (C1_validate_tools_hard_gate
      ⟨"g", [], [⟨1, "a", ["browser"], "c"⟩], []⟩
      ["get_weather", "tavily_search"]).2.1 (by decide)

/-- C2: dispatch deduplication is first-wins — the results map's keys are
exactly the plan's tool names in encounter order with only first
occurrences retained, the invocation sequence coincides with those keys
(so a name appearing in several steps is invoked at most once and later
occurrences observe the single stored entry), and the key list has no
duplicates. -/
theorem C2_dispatch_first_wins (plan : TaskPlan)
    (call : String → String → List (String × String) → Except String String)
    (goal : String) :
    keysOf (execute_plan_tools plan call goal).1 = dedupKeepFirst (planTools plan)
    ∧ (execute_plan_tools plan call goal).2 = dedupKeepFirst (planTools plan)
    ∧ (keysOf (execute_plan_tools plan call goal).1).Nodup
    ∧ ∀ t, ((execute_plan_tools plan call goal).2).count t ≤ 1 := by
  obtain ⟨h1, h2⟩ := execSteps_spec call goal plan.steps []
  have hk : keysOf ([] : List (String × String)) = [] := rfl
  rw [hk] at h1 h2
  have hnodup : (dedupNew [] (planTools plan)).Nodup :=
    (dedupNew_nodup_disjoint [] (planTools plan)).1
  refine ⟨by simpa [execute_plan_tools, dedupKeepFirst, planTools] using h1,
    by simpa [execute_plan_tools, dedupKeepFirst, planTools] using h2, ?_, ?_⟩
  · rw [show keysOf (execute_plan_tools plan call goal).1
        = dedupKeepFirst (planTools plan) from by
      simpa [execute_plan_tools, dedupKeepFirst, planTools] using h1]
    exact hnodup
  · intro t
    rw [show (execute_plan_tools plan call goal).2
        = dedupKeepFirst (planTools plan) from by
      simpa [execute_plan_tools, dedupKeepFirst, planTools] using h2]
    exact List.nodup_iff_count_le_one.mp hnodup t

set_option maxRecDepth 10000 in
/-- C7 counterexample: a 2001-character result is stored as exactly its
first 2000 characters, with nothing appended — in particular not the
repository's own truncation marker text. -/
theorem C7_counterexample :
    (execute_plan_tools ⟨"g", [], [⟨1, "a", ["t"], "c"⟩], []⟩
        (fun _ _ _ => .ok ⟨List.replicate 2001 'a'⟩) "g").1
      = [("t", ⟨List.replicate 2000 'a'⟩)]
    ∧ (String.mk (List.replicate 2000 'a')).length = 2000
    ∧ String.mk (List.replicate 2000 'a')
        ≠ String.mk (List.replicate 2000 'a') ++ "\n\n... (truncated)" := by
  have hlen : ∀ n : Nat, (String.mk (List.replicate n 'a')).length = n := by
    intro n
    simp [String.length]
  refine ⟨?_, hlen 2000, ?_⟩
  · have hbig : (String.mk (List.replicate 2001 'a')).length > 2000 := by
      rw [hlen]
      norm_num
    simp only [execute_plan_tools, execSteps, execTools, keysOf, List.map_nil,
      List.not_mem_nil, if_neg, if_false, ite_false, reduceIte, storeResult,
      if_pos hbig, List.nil_append]
    have htake : List.take 2000 (String.mk (List.replicate 2001 'a')).data
        = List.replicate 2000 'a' := by
      show List.take 2000 (List.replicate 2001 'a') = List.replicate 2000 'a'
      simp [List.take_replicate]
    rw [htake]
  · intro heq
    have hl := congrArg String.length heq
    rw [String.length_append, hlen] at hl
    have : (0 : Nat) < "\n\n... (truncated)".length := by decide
    omega

/-- C7 (amended): for a plan invoking one tool whose raw result has more
than 2000 characters, the stored entry is exactly the first 2000
characters with no marker appended; a result of at most 2000 characters
is stored unchanged; and every successfully stored value in any run is
bounded by 2000 characters unless it is an error marker. -/
theorem C7_truncation_without_marker (sid : Int) (act sc goal t : String)
    (call : String → String → List (String × String) → Except String String)
    (r : String) (h : call t goal [] = .ok r) :
    (execute_plan_tools ⟨goal, [], [⟨sid, act, [t], sc⟩], []⟩ call goal).1
      = [(t, if r.length > 2000 then ⟨r.data.take 2000⟩ else r)]
    ∧ ∀ (plan : TaskPlan)
        (call' : String → String → List (String × String) → Except String String)
        (goal' : String), ∀ p ∈ (execute_plan_tools plan call' goal').1,
        p.2.length ≤ 2000 ∨ ∃ m, p.2 = "Error: " ++ m := by
  constructor
  · simp only [execute_plan_tools, execSteps, execTools, keysOf, List.map_nil,
      List.not_mem_nil, if_neg, if_false, ite_false, reduceIte, h, storeResult,
      List.nil_append]
  · intro plan call' goal' p hp
    exact execute_plan_tools_values plan call' goal' p hp

set_option maxRecDepth 10000 in
/-- C7 witness: a 2001-character result is stored as its 2000-character
prefix. -/
theorem C7_witness :
    (execute_plan_tools ⟨"g", [], [⟨1, "a", ["t"], "c"⟩], []⟩
        (fun _ _ _ => .ok ⟨List.replicate 2001 'b'⟩) "g").1
      = [("t", String.mk (List.take 2000 (List.replicate 2001 'b')))] := by
  have h := (C7_truncation_without_marker 1 "a" "c" "g" "t"
    (fun _ _ _ => .ok ⟨List.replicate 2001 'b'⟩) ⟨List.replicate 2001 'b'⟩ rfl).1
  rw [h]
  have hbig : (String.mk (List.replicate 2001 'b')).length > 2000 := by
    show (List.replicate 2001 'b').length > 2000
    simp
  rw [if_pos hbig]

/-- C8: per-tool failure isolation — a raising tool invocation is caught
and recorded as an error-marker string under that tool's name, the sibling
tool in the same step still executes and stores its result, and in any run
every tool name mentioned anywhere in the plan receives an entry in the
results map. -/
theorem C8_error_isolation (sid : Int) (act sc goal t1 t2 : String) (hne : t1 ≠ t2)
    (call : String → String → List (String × String) → Except String String)
    (m r2 : String)
    (h1 : call t1 goal [] = .error m)
    (h2 : call t2 goal [(t1, "Error: " ++ m)] = .ok r2) :
    (execute_plan_tools ⟨goal, [], [⟨sid, act, [t1, t2], sc⟩], []⟩ call goal).1
      = [(t1, "Error: " ++ m), (t2, storeResult r2)]
    ∧ (execute_plan_tools ⟨goal, [], [⟨sid, act, [t1, t2], sc⟩], []⟩ call goal).2
      = [t1, t2]
    ∧ ∀ (plan : TaskPlan)
        (call' : String → String → List (String × String) → Except String String)
        (goal' : String) (t : String), t ∈ planTools plan →
        ∃ v, (t, v) ∈ (execute_plan_tools plan call' goal').1 := by
  have hmem : (t2 ∈ List.map Prod.fst [(t1, "Error: " ++ m)]) = False := by
    simp [Ne.symm hne]
  refine ⟨?_, ?_, ?_⟩
  · simp only [execute_plan_tools, execSteps, execTools, keysOf, List.map_nil,
      List.not_mem_nil, if_neg, if_false, ite_false, reduceIte, h1,
      List.nil_append, hmem, h2, List.singleton_append]
  · simp only [execute_plan_tools, execSteps, execTools, keysOf, List.map_nil,
      List.not_mem_nil, if_neg, if_false, ite_false, reduceIte, h1,
      List.nil_append, hmem, h2, List.append_nil, List.singleton_append]
  · intro plan call' goal' t ht
    obtain ⟨hkeys, -⟩ := execSteps_spec call' goal' plan.steps []
    have hmem' : t ∈ keysOf (execSteps call' goal' plan.steps []).1 := by
      rw [hkeys]
      rw [show keysOf ([] : List (String × String)) = [] from rfl, List.nil_append]
      exact mem_dedupNew [] (planTools plan) t ht (by simp)
    obtain ⟨p, hp, hpt⟩ := List.mem_map.mp hmem'
    exact ⟨p.2, by simpa [execute_plan_tools, ← hpt] using hp⟩

/-- C8 witness: with the first tool raising and its sibling succeeding,
the error marker and the sibling's result are both recorded in order. -/
theorem C8_witness :
    (execute_plan_tools ⟨"g", [], [⟨1, "a", ["t1", "t2"], "c"⟩], []⟩
        (fun t _ _ => if t = "t1" then .error "boom" else .ok "fine") "g").1
      = [("t1", "Error: " ++ "boom"), ("t2", storeResult "fine")]
    ∧ (execute_plan_tools ⟨"g", [], [⟨1, "a", ["t1", "t2"], "c"⟩], []⟩
        (fun t _ _ => if t = "t1" then .error "boom" else .ok "fine") "g").2
      = ["t1", "t2"] := by
  have h := C8_error_isolation 1 "a" "c" "g" "t1" "t2" (by decide)
    (fun t _ _ => if t = "t1" then .error "boom" else .ok "fine") "boom" "fine"
    (by simp) (by simp)
  exact ⟨h.1, h.2.1⟩

/-- C9: metrics log round-trip — appending any sequence of metric entries
to an empty store and loading them all back returns exactly those entries,
field for field, in append order. -/
theorem C9_metrics_roundtrip (entries : List MetricEntry) :
    MetricsTracker.load_all (entries.foldl MetricsTracker.log []) = some entries := by
  rw [foldl_log]
  show MetricsTracker.load_all (entries.map encodeEntry) = some entries
  unfold MetricsTracker.load_all
  rw [List.filter_eq_self.mpr, decodeLines_encode]
  intro l hl
  obtain ⟨e, -, rfl⟩ := List.mem_map.mp hl
  exact lineHasContent_encodeEntry e

/-- C5: trend classification — fewer than 2×5 entries report insufficient
data; otherwise the mean success score of the 5 most recent entries is
compared with the mean of the preceding 5, classifying by the ±1/2
thresholds; and any 10 entries scoring [5,5,5,5,5,1,1,1,1,1] in
chronological order classify as declining. -/
theorem C5_trend_classification (entries : List MetricEntry) :
    (entries.length < 10 → calculate_trend entries 5 = "insufficient_data")
    ∧ (10 ≤ entries.length →
        (meanQ ((entries.drop (entries.length - 5)).map MetricEntry.success_score)
            - meanQ (((entries.drop (entries.length - 10)).take 5).map
                MetricEntry.success_score) > 1 / 2 →
          calculate_trend entries 5 = "improving")
        ∧ (meanQ ((entries.drop (entries.length - 5)).map MetricEntry.success_score)
            - meanQ (((entries.drop (entries.length - 10)).take 5).map
                MetricEntry.success_score) < -(1 / 2) →
          calculate_trend entries 5 = "declining")
        ∧ (¬(meanQ ((entries.drop (entries.length - 5)).map MetricEntry.success_score)
            - meanQ (((entries.drop (entries.length - 10)).take 5).map
                MetricEntry.success_score) > 1 / 2) →
          ¬(meanQ ((entries.drop (entries.length - 5)).map MetricEntry.success_score)
            - meanQ (((entries.drop (entries.length - 10)).take 5).map
                MetricEntry.success_score) < -(1 / 2)) →
          calculate_trend entries 5 = "stable"))
    ∧ (∀ es : List MetricEntry,
        es.map MetricEntry.success_score = [5, 5, 5, 5, 5, 1, 1, 1, 1, 1] →
        calculate_trend es 5 = "declining") := by
  refine ⟨?_, ?_, ?_⟩
  · intro h
    simp only [calculate_trend]
    rw [if_pos (by omega)]
  · intro h
    refine ⟨?_, ?_, ?_⟩
    · intro hgt
      simp only [calculate_trend, show (5 * 2 : Nat) = 10 from rfl]
      rw [if_neg (by omega), if_pos hgt]
    · intro hlt
      simp only [calculate_trend, show (5 * 2 : Nat) = 10 from rfl]
      rw [if_neg (by omega), if_neg (by simp only [gt_iff_lt, not_lt]; linarith),
        if_pos hlt]
    · intro hng hnl
      simp only [calculate_trend, show (5 * 2 : Nat) = 10 from rfl]
      rw [if_neg (by omega), if_neg hng, if_neg hnl]
  · intro es hmap
    have hlen : es.length = 10 := by
      have := congrArg List.length hmap
      simpa using this
    have hrec : (es.drop (es.length - 5)).map MetricEntry.success_score
        = [1, 1, 1, 1, 1] := by
      rw [hlen, show (10 : Nat) - 5 = 5 from rfl, List.map_drop, hmap]
      rfl
    have hprev : ((es.drop (es.length - 10)).take 5).map MetricEntry.success_score
        = [5, 5, 5, 5, 5] := by
      rw [hlen, show (10 : Nat) - 10 = 0 from rfl, List.drop_zero, List.map_take, hmap]
      rfl
    simp only [calculate_trend, show (5 * 2 : Nat) = 10 from rfl]
    rw [if_neg (by omega), hrec, hprev]
    norm_num [meanQ]

/-- C5 witness: the empty history reports insufficient data, and ten
entries scoring [5,5,5,5,5,1,1,1,1,1] classify as declining. -/
theorem C5_witness :
    calculate_trend [] 5 = "insufficient_data"
    ∧ calculate_trend
        ([5, 5, 5, 5, 5, 1, 1, 1, 1, 1].map
          (fun k => MetricEntry.mk "t" "g" "other" k 0 0 ⟨0, 0⟩ true [] [])) 5
      = "declining" := by
  constructor
  · exact (C5_trend_classification []).1 (by simp)
  · exact (C5_trend_classification
      ([5, 5, 5, 5, 5, 1, 1, 1, 1, 1].map
        (fun k => MetricEntry.mk "t" "g" "other" k 0 0 ⟨0, 0⟩ true [] []))).2.2 _
      (by simp)

set_option maxRecDepth 20000 in
/-- C6 counterexample: `extract_city "nyc weather"` is `"Nyc"` — the
`X weather` regex fires before the abbreviation table is consulted — not
`"New York"` as the claim's abbreviation-path example asserts. -/
theorem C6_counterexample :
    extract_city "nyc weather" = "Nyc" ∧ extract_city "nyc weather" ≠ "New York" :=
  ⟨by decide, by decide⟩

set_option maxRecDepth 20000 in
/-- C6 (amended): the extraction rules apply in the order (a) `in/for X`
regex, (b) `X weather` regex, (c) capitalized words, (d) abbreviation
table, (e) default city; `"Weather in New York"` extracts `"New York"`
by rule (a); `"nyc weather"` extracts `"Nyc"` by rule (b) — the
abbreviation table is reached only when no earlier rule matches, as in
`"nyc"` → `"New York"`; unmatched text yields the default city. -/
theorem C6_city_extraction_rules :
    (∀ (text : String) (g : List Char),
      pattern1 (text.data.map lowerChar) = some g →
      extract_city text = ⟨titleChars false g⟩)
    ∧ (∀ (text : String) (g : List Char),
      pattern1 (text.data.map lowerChar) = none →
      pattern2 (text.data.map lowerChar) = some g →
      extract_city text = ⟨titleChars false g⟩)
    ∧ (∀ (text : String) (w : List Char),
      pattern1 (text.data.map lowerChar) = none →
      pattern2 (text.data.map lowerChar) = none →
      pattern3 (splitWs text.data) = some w →
      extract_city text = ⟨w⟩)
    ∧ extract_city "Weather in New York" = "New York"
    ∧ extract_city "nyc weather" = "Nyc"
    ∧ extract_city "San Francisco forecast" = "San Francisco"
    ∧ extract_city "nyc" = "New York"
    ∧ extract_city "qqq zz" = "New York" := by
  refine ⟨?_, ?_, ?_, by decide, by decide, by decide, by decide, by decide⟩
  · intro text g h1
    simp only [extract_city]
    rw [h1]
  · intro text g h1 h2
    simp only [extract_city]
    rw [h1, h2]
  · intro text w h1 h2 h3
    simp only [extract_city]
    rw [h1, h2, h3]

set_option maxRecDepth 20000 in
/-- C6 witness: on `"nyc weather"` the first regex fails, the second
captures `nyc`, and the rule-order theorem yields the title-cased result. -/
theorem C6_witness : extract_city "nyc weather" = "Nyc" := by
  have h := (C6_city_extraction_rules).2.1 "nyc weather" ['n', 'y', 'c']
    (by decide) (by decide)
  simpa using h

/-- C3: the judge applies exactly one repair attempt — a first successful
parse uses one LLM call; a first parse failure triggers exactly one more
call whose prompt carries the failed response verbatim as a suffix, and a
success of that second parse is returned; a second failure is a fatal
error with no further call (the prompt log always has length at most two);
and schema validation accepts exactly the in-range candidates unchanged —
out-of-range values fail rather than being clamped. -/
theorem C3_judge_single_repair (llm : Nat → String → String)
    (decode : String → Option JudgeCandidate)
    (schemaText goal planText ans : String) (trace : Option String)
    (p raw : String)
    (hp : p = buildJudgePrompt schemaText goal planText ans trace)
    (hraw : raw = llm 0 p) :
    (∀ s, parseJudge decode raw = some s →
      judge_run llm decode schemaText goal planText ans trace = ⟨.ok s, [p]⟩)
    ∧ (parseJudge decode raw = none →
        (judge_run llm decode schemaText goal planText ans trace).prompts
          = [p, buildFixPrompt schemaText raw]
        ∧ (∃ pre, pre ++ raw = buildFixPrompt schemaText raw)
        ∧ (∀ s₂, parseJudge decode (llm 1 (buildFixPrompt schemaText raw)) = some s₂ →
            (judge_run llm decode schemaText goal planText ans trace).result = .ok s₂)
        ∧ (parseJudge decode (llm 1 (buildFixPrompt schemaText raw)) = none →
            ∃ m, (judge_run llm decode schemaText goal planText ans trace).result
              = .error m))
    ∧ (judge_run llm decode schemaText goal planText ans trace).prompts.length ≤ 2
    ∧ (∀ c s, validateJudgeCandidate c = some s →
        s.success = c.success ∧ s.plan_quality = c.plan_quality
        ∧ s.reasoning_quality = c.reasoning_quality ∧ s.notes = c.notes
        ∧ 0 ≤ c.success ∧ c.success ≤ 5 ∧ 0 ≤ c.plan_quality ∧ c.plan_quality ≤ 5
        ∧ 0 ≤ c.reasoning_quality ∧ c.reasoning_quality ≤ 5)
    ∧ (∀ c, (5 < c.success ∨ c.success < 0 ∨ 5 < c.plan_quality ∨ c.plan_quality < 0
        ∨ 5 < c.reasoning_quality ∨ c.reasoning_quality < 0) →
        validateJudgeCandidate c = none) := by
  subst hp
  subst hraw
  refine ⟨?_, ?_, ?_, ?_, ?_⟩
  · intro s hs
    simp only [judge_run, hs]
  · intro hnone
    refine ⟨?_, ⟨"Return ONLY valid JSON for this schema. No markdown, no prose.\n"
        ++ schemaText ++ "\n\nOriginal response:\n", rfl⟩, ?_, ?_⟩
    · simp only [judge_run, hnone]
      cases h2 : parseJudge decode (llm 1 (buildFixPrompt schemaText
          (llm 0 (buildJudgePrompt schemaText goal planText ans trace)))) <;> rfl
    · intro s₂ hs₂
      simp only [judge_run, hnone, hs₂]
    · intro h2
      simp only [judge_run, hnone, h2]
      exact ⟨_, rfl⟩
  · cases h1 : parseJudge decode (llm 0 (buildJudgePrompt schemaText goal planText
        ans trace)) with
    | some s => simp [judge_run, h1]
    | none =>
      cases h2 : parseJudge decode (llm 1 (buildFixPrompt schemaText
          (llm 0 (buildJudgePrompt schemaText goal planText ans trace)))) <;>
        simp [judge_run, h1, h2]
  · intro c s hcs
    unfold validateJudgeCandidate at hcs
    by_cases hc : 0 ≤ c.success ∧ c.success ≤ 5
        ∧ 0 ≤ c.plan_quality ∧ c.plan_quality ≤ 5
        ∧ 0 ≤ c.reasoning_quality ∧ c.reasoning_quality ≤ 5
    · rw [if_pos hc] at hcs
      obtain ⟨h1, h2, h3, h4, h5, h6⟩ := hc
      cases hcs
      exact ⟨rfl, rfl, rfl, rfl, h1, h2, h3, h4, h5, h6⟩
    · rw [if_neg hc] at hcs
      exact absurd hcs (by simp)
  · intro c hc
    unfold validateJudgeCandidate
    rw [if_neg (by omega)]

/-- C3 witness: with a first response that fails to parse and a second
that parses to scores (5,4,3), the judge issues exactly one repair
re-prompt embedding the failed response and returns the repaired score;
and the out-of-range candidate with success 6 fails validation. -/
theorem C3_witness :
    (judge_run (fun i _ => if i = 0 then "notjson" else "good")
        (fun s => if s = "good" then some ⟨5, 4, 3, "ok"⟩ else none)
        "S" "g" "p" "a" none).result = .ok ⟨5, 4, 3, "ok"⟩
    ∧ (judge_run (fun i _ => if i = 0 then "notjson" else "good")
        (fun s => if s = "good" then some ⟨5, 4, 3, "ok"⟩ else none)
        "S" "g" "p" "a" none).prompts.length = 2
    ∧ validateJudgeCandidate ⟨6, 0, 0, ""⟩ = none := by
  have hC3 := C3_judge_single_repair (fun i _ => if i = 0 then "notjson" else "good")
    (fun s => if s = "good" then some ⟨5, 4, 3, "ok"⟩ else none)
    "S" "g" "p" "a" none _ _ rfl rfl
  have hnone : parseJudge (fun s => if s = "good" then some ⟨5, 4, 3, "ok"⟩ else none)
      ((fun i _ => if i = 0 then "notjson" else "good") 0
        (buildJudgePrompt "S" "g" "p" "a" none)) = none := by
    simp [parseJudge]
  have h2 := hC3.2.1 hnone
  refine ⟨?_, ?_, ?_⟩
  · refine h2.2.2.1 ⟨5, 4, 3, "ok"⟩ ?_
    simp [parseJudge, validateJudgeCandidate]
  · rw [h2.1]
    rfl
  · exact hC3.2.2.2.2 ⟨6, 0, 0, ""⟩ (by norm_num)

/-- When every tool invocation raises, each stored value is the error
marker for its own tool name. -/
theorem execTools_all_fail
    (call : String → String → List (String × String) → Except String String)
    (goal : String) (f : String → String)
    (hcall : ∀ t g r, call t g r = .error (f t)) (ts : List String)
    (res : List (String × String)) (hres : ∀ p ∈ res, p.2 = "Error: " ++ f p.1) :
    ∀ p ∈ (execTools call goal ts res).1, p.2 = "Error: " ++ f p.1 := by
  induction ts generalizing res with
  | nil =>
    intro p hp
    simp only [execTools] at hp
    exact hres p hp
  | cons t ts ih =>
    intro p hp
    by_cases ht : t ∈ keysOf res
    · rw [execTools, if_pos ht] at hp
      exact ih res hres p hp
    · rw [execTools, if_neg ht] at hp
      refine ih _ ?_ p hp
      intro q hq
      rcases List.mem_append.mp hq with hq | hq
      · exact hres q hq
      · rcases List.mem_singleton.mp hq with rfl
        simp [hcall t goal res]

/-- Step-loop version of `execTools_all_fail`. -/
theorem execSteps_all_fail
    (call : String → String → List (String × String) → Except String String)
    (goal : String) (f : String → String)
    (hcall : ∀ t g r, call t g r = .error (f t)) (ss : List PlanStep)
    (res : List (String × String)) (hres : ∀ p ∈ res, p.2 = "Error: " ++ f p.1) :
    ∀ p ∈ (execSteps call goal ss res).1, p.2 = "Error: " ++ f p.1 := by
  induction ss generalizing res with
  | nil =>
    intro p hp
    simp only [execSteps] at hp
    exact hres p hp
  | cons s ss ih =>
    intro p hp
    rw [execSteps] at hp
    exact ih _ (execTools_all_fail call goal f hcall s.tools res hres) p hp

/-- C4: metric persistence is atomic with respect to fatal errors — a run
that ends in an error (plan text failing schema parse, plan referencing a
disallowed tool, or the judge failing schema validation twice) leaves the
metrics file untouched; a run whose only failure is the synthesis stage
still persists a metric entry with the failure in its error list and
`completed = false`. -/
theorem C4_fatal_abort_nonfatal_persist (goal : String) (env : RunEnv)
    (file : List String) :
    (∀ m, (run_orchestration goal env file).result = .error m →
      (run_orchestration goal env file).file = file)
    ∧ (env.parsePlan (sanitizePlan env.rawPlan) = none →
      ∃ m, (run_orchestration goal env file).result = .error m)
    ∧ (∀ plan e, env.parsePlan (sanitizePlan env.rawPlan) = some plan →
      validate_tools plan env.allowed = .error e →
      ∃ m, (run_orchestration goal env file).result = .error m)
    ∧ (∀ plan m, env.parsePlan (sanitizePlan env.rawPlan) = some plan →
      validate_tools plan env.allowed = .ok () →
      (judge_run env.llm env.decodeJudge env.schemaText goal (env.renderPlan plan)
        (match env.synth with
          | .ok s => s
          | .error msg => "Execution failed: " ++ msg) none).result = .error m →
      (run_orchestration goal env file).result = .error m)
    ∧ (∀ plan msg score, env.parsePlan (sanitizePlan env.rawPlan) = some plan →
      validate_tools plan env.allowed = .ok () →
      env.synth = .error msg →
      (judge_run env.llm env.decodeJudge env.schemaText goal (env.renderPlan plan)
        ("Execution failed: " ++ msg) none).result = .ok score →
      (∃ r, (run_orchestration goal env file).result = .ok r
        ∧ r.completed = false ∧ r.errors = [msg])
      ∧ (run_orchestration goal env file).file
        = file ++ [encodeEntry ⟨env.timestamp, goal, infer_goal_type goal,
            score.success, score.plan_quality, score.reasoning_quality,
            env.execTime, false, [msg], dedupKeepFirst (planTools plan)⟩]) := by
  refine ⟨?_, ?_, ?_, ?_, ?_⟩
  · intro m hm
    cases hparse : env.parsePlan (sanitizePlan env.rawPlan) with
    | none => simp [run_orchestration, hparse]
    | some plan =>
      cases hval : validate_tools plan env.allowed with
      | error e => simp [run_orchestration, hparse, hval]
      | ok u =>
        cases u
        simp only [run_orchestration, hparse, hval] at hm ⊢
        cases hj : (judge_run env.llm env.decodeJudge env.schemaText goal
            (env.renderPlan plan)
            (match env.synth with
              | .ok s => (s, true, ([] : List String))
              | .error m' => ("Execution failed: " ++ m', false, [m'])).1
            none).result with
        | error m' => simp [hj]
        | ok score => simp [hj] at hm
  · intro hparse
    simp [run_orchestration, hparse]
  · intro plan e hparse hval
    simp [run_orchestration, hparse, hval]
  · intro plan m hparse hval hj
    cases hsynth : env.synth with
    | ok s =>
      rw [hsynth] at hj
      simp only [run_orchestration, hparse, hval, hsynth]
      simp only [hj]
    | error msg =>
      rw [hsynth] at hj
      simp only [run_orchestration, hparse, hval, hsynth]
      simp only [hj]
  · intro plan msg score hparse hval hsynth hj
    have hrun : run_orchestration goal env file
        = ⟨.ok ⟨goal, false, plan,
            "\x7b\"query\": \"" ++ goal
              ++ "\", \"findings\": [], \"notes\": \"Skipped - using tool results directly\"\x7d",
            score, (execute_plan_tools plan env.callTool goal).1, env.execTime,
            [msg], "Execution failed: " ++ msg⟩,
          (execute_plan_tools plan env.callTool goal).2,
          MetricsTracker.log file ⟨env.timestamp, goal, infer_goal_type goal,
            score.success, score.plan_quality, score.reasoning_quality,
            env.execTime, false, [msg], dedupKeepFirst (planTools plan)⟩⟩ := by
      simp only [run_orchestration, hparse, hval, hsynth]
      simp only [hj]
    rw [hrun]
    exact ⟨⟨_, rfl, rfl, rfl⟩, rfl⟩

/-- A plan with one tool-free step, for exercising the non-fatal path. -/
def C4_plan : TaskPlan := ⟨"g", [], [⟨1, "a", [], "c"⟩], []⟩

/-- A run environment whose synthesis stage fails non-fatally while the
planner and judge oracles behave. -/
def C4_env : RunEnv :=
  ⟨"raw", fun _ => some C4_plan, [], fun _ _ _ => .error "x", .error "synthboom",
   fun _ _ => "resp", fun _ => some ⟨5, 4, 3, "n"⟩, "S", fun _ => "P", "T", ⟨0, 0⟩⟩

/-- C4 witness: a run whose only failure is synthesis still appends a
metric entry recording `completed = false` and the failure message. -/
theorem C4_witness :
    (run_orchestration "g" C4_env []).file
      = [encodeEntry ⟨"T", "g", infer_goal_type "g", 5, 4, 3, ⟨0, 0⟩, false,
          ["synthboom"], dedupKeepFirst (planTools C4_plan)⟩]
    ∧ ∃ r, (run_orchestration "g" C4_env []).result = .ok r ∧ r.completed = false
        ∧ r.errors = ["synthboom"] := by
  have hj : (judge_run C4_env.llm C4_env.decodeJudge C4_env.schemaText "g"
      (C4_env.renderPlan C4_plan) ("Execution failed: " ++ "synthboom") none).result
      = .ok ⟨5, 4, 3, "n"⟩ := by
    simp [judge_run, parseJudge, C4_env, validateJudgeCandidate]
  have h := (C4_fatal_abort_nonfatal_persist "g" C4_env []).2.2.2.2 C4_plan
    "synthboom" ⟨5, 4, 3, "n"⟩ rfl rfl rfl hj
  obtain ⟨⟨r, hr, hrc, hre⟩, hfile⟩ := h
  exact ⟨by simpa using hfile, r, hr, hrc, hre⟩

/-- C10 (implicit): the metric entry's completed flag and error list
reflect only the answer-synthesis stage — in a run where every tool
invocation raises but synthesis succeeds, the run is recorded with
`completed = true` and an empty error list, and the tool failures appear
only as error-marker strings inside the returned tool-results map. -/
theorem C10_completed_reflects_synthesis_only (goal : String) (env : RunEnv)
    (file : List String) (plan : TaskPlan) (score : JudgeScore) (s : String)
    (f : String → String)
    (hparse : env.parsePlan (sanitizePlan env.rawPlan) = some plan)
    (hval : validate_tools plan env.allowed = .ok ())
    (hsynth : env.synth = .ok s)
    (hj : (judge_run env.llm env.decodeJudge env.schemaText goal
      (env.renderPlan plan) s none).result = .ok score)
    (hcall : ∀ t g r, env.callTool t g r = .error (f t)) :
    ∃ r, (run_orchestration goal env file).result = .ok r
      ∧ r.completed = true ∧ r.errors = []
      ∧ (run_orchestration goal env file).file
        = file ++ [encodeEntry ⟨env.timestamp, goal, infer_goal_type goal,
            score.success, score.plan_quality, score.reasoning_quality,
            env.execTime, true, [], dedupKeepFirst (planTools plan)⟩]
      ∧ ∀ p ∈ r.tool_results, p.2 = "Error: " ++ f p.1 := by
  have hrun : run_orchestration goal env file
      = ⟨.ok ⟨goal, true, plan,
          "\x7b\"query\": \"" ++ goal
            ++ "\", \"findings\": [], \"notes\": \"Skipped - using tool results directly\"\x7d",
          score, (execute_plan_tools plan env.callTool goal).1, env.execTime,
          [], s⟩,
        (execute_plan_tools plan env.callTool goal).2,
        MetricsTracker.log file ⟨env.timestamp, goal, infer_goal_type goal,
          score.success, score.plan_quality, score.reasoning_quality,
          env.execTime, true, [], dedupKeepFirst (planTools plan)⟩⟩ := by
    simp only [run_orchestration, hparse, hval, hsynth]
    simp only [hj]
  rw [hrun]
  refine ⟨_, rfl, rfl, rfl, rfl, ?_⟩
  intro p hp
  exact execSteps_all_fail env.callTool goal f hcall plan.steps [] (by simp) p hp

/-- A plan using the single allowed tool `t`. -/
def C10_plan : TaskPlan := ⟨"g", [], [⟨1, "a", ["t"], "c"⟩], []⟩

/-- A run environment where every tool invocation raises but synthesis
and judging succeed. -/
def C10_env : RunEnv :=
  ⟨"raw", fun _ => some C10_plan, ["t"], fun _ _ _ => .error "down", .ok "fine",
   fun _ _ => "resp", fun _ => some ⟨4, 4, 4, "n"⟩, "S", fun _ => "P", "T", ⟨0, 0⟩⟩

/-- C10 witness: with every tool failing and synthesis succeeding, the
run is recorded completed with no errors, and the failures sit only in
the tool-results map. -/
theorem C10_witness :
    ∃ r, (run_orchestration "g" C10_env []).result = .ok r
      ∧ r.completed = true ∧ r.errors = []
      ∧ (run_orchestration "g" C10_env []).file
        = [encodeEntry ⟨"T", "g", infer_goal_type "g", 4, 4, 4, ⟨0, 0⟩, true,
            [], dedupKeepFirst (planTools C10_plan)⟩]
      ∧ ∀ p ∈ r.tool_results, p.2 = "Error: " ++ "down" := by
  have hj : (judge_run C10_env.llm C10_env.decodeJudge C10_env.schemaText "g"
      (C10_env.renderPlan C10_plan) "fine" none).result = .ok ⟨4, 4, 4, "n"⟩ := by
    simp [judge_run, parseJudge, C10_env, validateJudgeCandidate]
  obtain ⟨r, hr, hrc, hre, hfile, htools⟩ :=
    C10_completed_reflects_synthesis_only "g" C10_env [] C10_plan ⟨4, 4, 4, "n"⟩
      "fine" (fun _ => "down") rfl rfl rfl hj (fun _ _ _ => rfl)
  exact ⟨r, hr, hrc, hre, by simpa using hfile, htools⟩
